import Mathlib

/-!
Verification development for the autoconfigs repository: a shallow embedding of
the constraint checkers (ConstraintCheckers.py), dynamic defaults
(DynamicDefaults.py), option declarations (Arg.py), configuration groups
(ArgsGroup.py) and the resolution orchestrator (ArgParser.py), together with
theorems settling the specification claims about them.
-/

set_option maxRecDepth 4000

/-! ## Constraint checkers (ConstraintCheckers.py)

Bound checkers over integers.  `LowerBoundChecker.__call__` raises a
`ValueError` when the value is below the bound (at the bound too, when strict);
`UpperBoundChecker` is symmetric; both return the value unchanged on success.
-/

/-- A bound checker: `LowerBoundChecker(bound, strict)` or
`UpperBoundChecker(bound, strict)` from ConstraintCheckers.py. -/
inductive BoundChecker where
  | lower (bound : Int) (strict : Bool)
  | upper (bound : Int) (strict : Bool)
deriving DecidableEq

/-- `LowerBoundChecker.__call__` / `UpperBoundChecker.__call__`: raise
`ValueError` on a violated bound, otherwise return the value. -/
def checkerCall : BoundChecker → Int → Except String Int
  | .lower lb strict, value =>
    if strict && decide (value ≤ lb) then
      .error "Value is less than or equal to the lower bound"
    else if !strict && decide (value < lb) then
      .error "Value is less than the lower bound"
    else .ok value
  | .upper ub strict, value =>
    if strict && decide (value ≥ ub) then
      .error "Value is greater than or equal to the upper bound"
    else if !strict && decide (value > ub) then
      .error "Value is greater than the upper bound"
    else .ok value

/-- Lexicographic boolean comparison on sort keys `(bound, tiebreak)`,
mirroring Python tuple comparison used by `list.sort(key=...)`. -/
def lexLe (a b : Int × Nat) : Bool :=
  decide (a.1 < b.1) || (decide (a.1 = b.1) && decide (a.2 ≤ b.2))

/-- Sort key for lower bounds: Python `key=lambda x: (x[0], not x[1])`
(`False < True`, so a strict checker sorts before a non-strict one at ties). -/
def lowKey (x : Int × Bool) : Int × Nat := (x.1, if x.2 then 0 else 1)

/-- Sort key for upper bounds: Python `key=lambda x: (x[0], x[1])`
(a non-strict checker sorts before a strict one at ties). -/
def upKey (x : Int × Bool) : Int × Nat := (x.1, if x.2 then 1 else 0)

/-- Comparison used to sort the collected lower bounds. -/
def lowLe (a b : Int × Bool) : Bool := lexLe (lowKey a) (lowKey b)

/-- Comparison used to sort the collected upper bounds. -/
def upLe (a b : Int × Bool) : Bool := lexLe (upKey a) (upKey b)

/-- Stable insertion of an element into a sorted list (helper for the model of
Python `list.sort`). -/
def pyInsert (le : α → α → Bool) (a : α) : List α → List α
  | [] => [a]
  | b :: l => if le a b then a :: b :: l else b :: pyInsert le a l

/-- Model of Python stable `list.sort(key=...)` by insertion sort. -/
def pySort (le : α → α → Bool) : List α → List α
  | [] => []
  | a :: l => pyInsert le a (pySort le l)

/-- The `(bound, strict)` pairs of the lower-bound checkers of a list, in
order (the `isinstance(checker, LowerBoundChecker)` branch of
`CompositeConstraintChecker.__init__`). -/
def lowersOf (checkers : List BoundChecker) : List (Int × Bool) :=
  checkers.filterMap fun c => match c with
    | .lower b s => some (b, s)
    | _ => none

/-- The `(bound, strict)` pairs of the upper-bound checkers of a list, in
order. -/
def uppersOf (checkers : List BoundChecker) : List (Int × Bool) :=
  checkers.filterMap fun c => match c with
    | .upper b s => some (b, s)
    | _ => none

/-- The composite checker object: its `self.checkers` list as built by
`CompositeConstraintChecker.__init__`. -/
structure CompositeConstraintChecker where
  checkers : List BoundChecker
deriving DecidableEq

/-- The lower bound retained by composition: `self.lower_bounds[-1]` after the
stable sort with key `(x[0], not x[1])`. -/
def selLower (checkers : List BoundChecker) : Option (Int × Bool) :=
  (pySort lowLe (lowersOf checkers)).getLast?

/-- The upper bound retained by composition: `self.upper_bounds[0]` after the
stable sort with key `(x[0], x[1])`. -/
def selUpper (checkers : List BoundChecker) : Option (Int × Bool) :=
  (pySort upLe (uppersOf checkers)).head?

/-- The composition-time incompatibility test of
`CompositeConstraintChecker.__init__`, applied to the retained extreme bounds:
when `max_lower_bound >= min_upper_bound`, raise in three of the four
strictness combinations (the code has no branch for both bounds
non-strict). -/
def incompatCheck : Option (Int × Bool) → Option (Int × Bool) → Except String Unit
  | some (max_lower_bound, max_lower_strict), some (min_upper_bound, min_upper_strict) =>
    if decide (max_lower_bound ≥ min_upper_bound) then
      if max_lower_strict && min_upper_strict then
        .error "Incompatible constraints: lower bound >= upper bound"
      else if max_lower_strict && !min_upper_strict then
        .error "Incompatible constraints: lower bound > upper bound"
      else if !max_lower_strict && min_upper_strict then
        .error "Incompatible constraints: lower bound >= upper bound"
      else .ok ()
    else .ok ()
  | _, _ => .ok ()

/-- `CompositeConstraintChecker.__init__`: collect and sort the lower and upper
bounds, raise `ValueError` on the incompatibility cases the code enumerates,
then keep the last sorted lower bound and the first sorted upper bound. -/
def compositeInit (checkers : List BoundChecker) : Except String CompositeConstraintChecker :=
  match incompatCheck (selLower checkers) (selUpper checkers) with
  | .error e => .error e
  | .ok _ =>
    .ok ⟨(match selLower checkers with
          | some (b, s) => [BoundChecker.lower b s]
          | none => []) ++
         (match selUpper checkers with
          | some (b, s) => [BoundChecker.upper b s]
          | none => [])⟩

/-- Fold of `CompositeConstraintChecker.__call__`: thread the value through
each retained checker, propagating the first raised error. -/
def checkerListCall : List BoundChecker → Int → Except String Int
  | [], v => .ok v
  | ck :: rest, v =>
    match checkerCall ck v with
    | .ok v2 => checkerListCall rest v2
    | .error e => .error e

/-- `CompositeConstraintChecker.__call__`. -/
def compositeCall (c : CompositeConstraintChecker) (value : Int) : Except String Int :=
  checkerListCall c.checkers value

/-- Whether a call succeeded (did not raise). -/
def exOk : Except ε α → Bool
  | .ok _ => true
  | .error _ => false

/-! ### Facts about the model of `list.sort` -/

theorem mem_pyInsert {le : α → α → Bool} {a x : α} :
    ∀ {l : List α}, x ∈ pyInsert le a l ↔ x = a ∨ x ∈ l := by
  intro l
  induction l with
  | nil => simp [pyInsert]
  | cons b t ih =>
    simp only [pyInsert]
    by_cases h : le a b = true
    · simp [h]
    · simp only [h, if_neg, Bool.false_eq_true, if_false, List.mem_cons, ih]
      tauto

theorem mem_pySort {le : α → α → Bool} {x : α} :
    ∀ {l : List α}, x ∈ pySort le l ↔ x ∈ l := by
  intro l
  induction l with
  | nil => simp [pySort]
  | cons a t ih => simp [pySort, mem_pyInsert, ih]

theorem pairwise_pyInsert {le : α → α → Bool}
    (htot : ∀ a b, le a b = true ∨ le b a = true)
    (htrans : ∀ a b c, le a b = true → le b c = true → le a c = true)
    (a : α) : ∀ {l : List α}, List.Pairwise (fun x y => le x y = true) l →
      List.Pairwise (fun x y => le x y = true) (pyInsert le a l) := by
  intro l
  induction l with
  | nil => intro _; simp [pyInsert]
  | cons b t ih =>
    intro h
    rcases List.pairwise_cons.mp h with ⟨hb, ht⟩
    simp only [pyInsert]
    by_cases hab : le a b = true
    · simp only [hab, if_true]
      refine List.pairwise_cons.mpr ⟨?_, h⟩
      intro y hy
      rcases List.mem_cons.mp hy with rfl | hyt
      · exact hab
      · exact htrans a b y hab (hb y hyt)
    · simp only [hab, Bool.false_eq_true, if_false]
      refine List.pairwise_cons.mpr ⟨?_, ih ht⟩
      intro y hy
      rcases mem_pyInsert.mp hy with rfl | hyt
      · rcases htot y b with h1 | h1
        · exact absurd h1 hab
        · exact h1
      · exact hb y hyt

theorem pairwise_pySort {le : α → α → Bool}
    (htot : ∀ a b, le a b = true ∨ le b a = true)
    (htrans : ∀ a b c, le a b = true → le b c = true → le a c = true) :
    ∀ l : List α, List.Pairwise (fun x y => le x y = true) (pySort le l) := by
  intro l
  induction l with
  | nil => simp [pySort]
  | cons a t ih => exact pairwise_pyInsert htot htrans a ih

theorem mem_getLastQ {l : List α} {m : α} (h : l.getLast? = some m) : m ∈ l := by
  induction l with
  | nil => simp at h
  | cons a t ih =>
    cases t with
    | nil => simp_all [List.getLast?]
    | cons b u =>
      rw [List.getLast?_cons_cons] at h
      exact List.mem_cons_of_mem a (ih h)

theorem pairwise_getLastQ {R : α → α → Prop} :
    ∀ {l : List α} {m : α}, List.Pairwise R l → l.getLast? = some m →
      ∀ x ∈ l, x = m ∨ R x m := by
  intro l
  induction l with
  | nil => intro m _ _ x hx; simp at hx
  | cons a t ih =>
    intro m hp hl x hx
    cases t with
    | nil =>
      simp [List.getLast?] at hl
      rcases List.mem_singleton.mp hx with rfl
      exact Or.inl hl
    | cons b u =>
      rw [List.getLast?_cons_cons] at hl
      rcases List.pairwise_cons.mp hp with ⟨ha, ht⟩
      rcases List.mem_cons.mp hx with rfl | hxt
      · exact Or.inr (ha m (mem_getLastQ hl))
      · exact ih ht hl x hxt

theorem pySort_eq_nil_iff {le : α → α → Bool} {l : List α} :
    pySort le l = [] ↔ l = [] := by
  constructor
  · intro h
    cases l with
    | nil => rfl
    | cons a t =>
      have : a ∈ pySort le (a :: t) := mem_pySort.mpr (List.mem_cons_self a t)
      rw [h] at this
      simp at this
  · intro h; simp [h, pySort]

theorem lexLe_total (a b : Int × Nat) : lexLe a b = true ∨ lexLe b a = true := by
  simp only [lexLe, Bool.or_eq_true, Bool.and_eq_true, decide_eq_true_eq]
  omega

theorem lexLe_trans (a b c : Int × Nat) (h1 : lexLe a b = true) (h2 : lexLe b c = true) :
    lexLe a c = true := by
  simp only [lexLe, Bool.or_eq_true, Bool.and_eq_true, decide_eq_true_eq] at *
  omega

theorem lowLe_total (a b : Int × Bool) : lowLe a b = true ∨ lowLe b a = true :=
  lexLe_total (lowKey a) (lowKey b)

theorem lowLe_trans (a b c : Int × Bool) (h1 : lowLe a b = true) (h2 : lowLe b c = true) :
    lowLe a c = true :=
  lexLe_trans (lowKey a) (lowKey b) (lowKey c) h1 h2

theorem upLe_total (a b : Int × Bool) : upLe a b = true ∨ upLe b a = true :=
  lexLe_total (upKey a) (upKey b)

theorem upLe_trans (a b c : Int × Bool) (h1 : upLe a b = true) (h2 : upLe b c = true) :
    upLe a c = true :=
  lexLe_trans (upKey a) (upKey b) (upKey c) h1 h2

/-! ### Characterisation of the retained bounds -/

theorem selLower_spec {cs : List BoundChecker} {b : Int} {s : Bool}
    (h : selLower cs = some (b, s)) :
    (b, s) ∈ lowersOf cs ∧ ∀ p ∈ lowersOf cs, lowLe p (b, s) = true := by
  have hmem : (b, s) ∈ lowersOf cs := mem_pySort.mp (mem_getLastQ h)
  refine ⟨hmem, ?_⟩
  intro p hp
  have hp2 : p ∈ pySort lowLe (lowersOf cs) := mem_pySort.mpr hp
  have := pairwise_getLastQ (pairwise_pySort lowLe_total lowLe_trans (lowersOf cs)) h p hp2
  rcases this with rfl | hle
  · rcases lowLe_total (b, s) (b, s) with h1 | h1 <;> exact h1
  · exact hle

theorem selUpper_spec {cs : List BoundChecker} {b : Int} {s : Bool}
    (h : selUpper cs = some (b, s)) :
    (b, s) ∈ uppersOf cs ∧ ∀ p ∈ uppersOf cs, upLe (b, s) p = true := by
  unfold selUpper at h
  cases hs : pySort upLe (uppersOf cs) with
  | nil => rw [hs] at h; simp at h
  | cons a t =>
    rw [hs] at h
    simp only [List.head?] at h
    injection h with h
    subst h
    have hmem : (b, s) ∈ uppersOf cs := by
      have h0 : (b, s) ∈ pySort upLe (uppersOf cs) := by
        rw [hs]; exact List.mem_cons_self _ _
      exact mem_pySort.mp h0
    refine ⟨hmem, ?_⟩
    intro p hp
    have hp2 : p ∈ pySort upLe (uppersOf cs) := mem_pySort.mpr hp
    rw [hs] at hp2
    have hpw := pairwise_pySort upLe_total upLe_trans (uppersOf cs)
    rw [hs] at hpw
    rcases List.mem_cons.mp hp2 with rfl | hpt
    · rcases upLe_total (b, s) (b, s) with h1 | h1 <;> exact h1
    · exact List.rel_of_pairwise_cons hpw hpt

theorem selLower_none_iff {cs : List BoundChecker} :
    selLower cs = none ↔ lowersOf cs = [] := by
  unfold selLower
  rw [List.getLast?_eq_none_iff, pySort_eq_nil_iff]

theorem selUpper_none_iff {cs : List BoundChecker} :
    selUpper cs = none ↔ uppersOf cs = [] := by
  unfold selUpper
  cases hs : pySort upLe (uppersOf cs) with
  | nil =>
    have h0 : uppersOf cs = [] := pySort_eq_nil_iff.mp hs
    simp [h0]
  | cons a t =>
    simp only [List.head?]
    constructor
    · intro h; simp at h
    · intro h
      rw [h] at hs
      simp [pySort] at hs

/-! ### Semantics of individual and composed checks -/

theorem checkerCall_lower_ok {b : Int} {s : Bool} {v : Int} :
    exOk (checkerCall (.lower b s) v) = true ↔ (if s = true then b < v else b ≤ v) := by
  simp only [checkerCall]
  split
  · rename_i hc
    rw [Bool.and_eq_true, decide_eq_true_eq] at hc
    obtain ⟨hs, hvb⟩ := hc
    subst hs
    simp only [exOk, Bool.false_eq_true, false_iff, if_true]
    omega
  · rename_i hc
    rw [Bool.and_eq_true, decide_eq_true_eq] at hc
    split
    · rename_i hc2
      rw [Bool.and_eq_true, Bool.not_eq_true', decide_eq_true_eq] at hc2
      obtain ⟨hs, hvb⟩ := hc2
      subst hs
      simp only [exOk, Bool.false_eq_true, false_iff, if_false]
      omega
    · rename_i hc2
      rw [Bool.and_eq_true, Bool.not_eq_true', decide_eq_true_eq] at hc2
      simp only [exOk, true_iff]
      cases s
      · have h3 : ¬ v < b := fun hv => hc2 ⟨rfl, hv⟩
        simp only [Bool.false_eq_true, if_false]
        omega
      · have h3 : ¬ v ≤ b := fun hv => hc ⟨rfl, hv⟩
        simp only [if_true]
        omega

theorem checkerCall_upper_ok {b : Int} {s : Bool} {v : Int} :
    exOk (checkerCall (.upper b s) v) = true ↔ (if s = true then v < b else v ≤ b) := by
  simp only [checkerCall]
  split
  · rename_i hc
    rw [Bool.and_eq_true, decide_eq_true_eq] at hc
    obtain ⟨hs, hvb⟩ := hc
    subst hs
    simp only [exOk, Bool.false_eq_true, false_iff, if_true]
    omega
  · rename_i hc
    rw [Bool.and_eq_true, decide_eq_true_eq] at hc
    split
    · rename_i hc2
      rw [Bool.and_eq_true, Bool.not_eq_true', decide_eq_true_eq] at hc2
      obtain ⟨hs, hvb⟩ := hc2
      subst hs
      simp only [exOk, Bool.false_eq_true, false_iff, if_false]
      omega
    · rename_i hc2
      rw [Bool.and_eq_true, Bool.not_eq_true', decide_eq_true_eq] at hc2
      simp only [exOk, true_iff]
      cases s
      · have h3 : ¬ v > b := fun hv => hc2 ⟨rfl, hv⟩
        simp only [Bool.false_eq_true, if_false]
        omega
      · have h3 : ¬ v ≥ b := fun hv => hc ⟨rfl, hv⟩
        simp only [if_true]
        omega

theorem checkerCall_ok_eq {ck : BoundChecker} {v w : Int} (h : checkerCall ck v = .ok w) :
    w = v := by
  cases ck <;> simp only [checkerCall] at h <;> split at h
  · simp at h
  · split at h
    · simp at h
    · injection h with h2; exact h2.symm
  · simp at h
  · split at h
    · simp at h
    · injection h with h2; exact h2.symm

theorem checkerListCall_ok {v : Int} :
    ∀ {l : List BoundChecker},
      exOk (checkerListCall l v) = true ↔ ∀ ck ∈ l, exOk (checkerCall ck v) = true := by
  intro l
  induction l with
  | nil => simp [checkerListCall, exOk]
  | cons ck rest ih =>
    simp only [checkerListCall]
    cases h : checkerCall ck v with
    | error e =>
      simp only [exOk, Bool.false_eq_true, false_iff]
      intro hall
      have := hall ck (List.mem_cons_self _ _)
      rw [h] at this
      simp [exOk] at this
    | ok w =>
      have hw : w = v := checkerCall_ok_eq h
      subst hw
      rw [ih]
      constructor
      · intro hall ck2 hck2
        rcases List.mem_cons.mp hck2 with rfl | h2
        · rw [h]; rfl
        · exact hall ck2 h2
      · intro hall ck2 hck2
        exact hall ck2 (List.mem_cons_of_mem _ hck2)

theorem compositeInit_ok_checkers {cs : List BoundChecker} {c : CompositeConstraintChecker}
    (h : compositeInit cs = .ok c) :
    c.checkers =
      (match selLower cs with
       | some (b, s) => [BoundChecker.lower b s]
       | none => []) ++
      (match selUpper cs with
       | some (b, s) => [BoundChecker.upper b s]
       | none => []) := by
  unfold compositeInit at h
  cases hi : incompatCheck (selLower cs) (selUpper cs) with
  | error e => rw [hi] at h; simp at h
  | ok u => rw [hi] at h; injection h with h2; rw [← h2]

theorem mem_lowersOf {cs : List BoundChecker} {b : Int} {s : Bool} :
    (b, s) ∈ lowersOf cs ↔ BoundChecker.lower b s ∈ cs := by
  simp only [lowersOf, List.mem_filterMap]
  constructor
  · rintro ⟨ck, hck, hf⟩
    cases ck with
    | lower b2 s2 => simp at hf; obtain ⟨rfl, rfl⟩ := hf; exact hck
    | upper b2 s2 => simp at hf
  · intro hck
    exact ⟨BoundChecker.lower b s, hck, rfl⟩

theorem mem_uppersOf {cs : List BoundChecker} {b : Int} {s : Bool} :
    (b, s) ∈ uppersOf cs ↔ BoundChecker.upper b s ∈ cs := by
  simp only [uppersOf, List.mem_filterMap]
  constructor
  · rintro ⟨ck, hck, hf⟩
    cases ck with
    | lower b2 s2 => simp at hf
    | upper b2 s2 => simp at hf; obtain ⟨rfl, rfl⟩ := hf; exact hck
  · intro hck
    exact ⟨BoundChecker.upper b s, hck, rfl⟩

theorem forall_checkers_split {cs : List BoundChecker} {v : Int} :
    (∀ ck ∈ cs, exOk (checkerCall ck v) = true) ↔
      ((∀ p ∈ lowersOf cs, exOk (checkerCall (.lower p.1 p.2) v) = true) ∧
       (∀ p ∈ uppersOf cs, exOk (checkerCall (.upper p.1 p.2) v) = true)) := by
  constructor
  · intro hall
    constructor
    · intro p hp
      exact hall (.lower p.1 p.2) (mem_lowersOf.mp hp)
    · intro p hp
      exact hall (.upper p.1 p.2) (mem_uppersOf.mp hp)
  · rintro ⟨hL, hU⟩ ck hck
    cases ck with
    | lower b s => exact hL (b, s) (mem_lowersOf.mpr hck)
    | upper b s => exact hU (b, s) (mem_uppersOf.mpr hck)

theorem lowers_collapse {cs : List BoundChecker} {b : Int} {s : Bool} {v : Int}
    (hsel : selLower cs = some (b, s))
    (huni : ∀ p ∈ lowersOf cs, ∀ q ∈ lowersOf cs, p.1 = q.1 → p.2 = q.2) :
    (exOk (checkerCall (.lower b s) v) = true ↔
      ∀ p ∈ lowersOf cs, exOk (checkerCall (.lower p.1 p.2) v) = true) := by
  obtain ⟨hmem, hmax⟩ := selLower_spec hsel
  constructor
  · intro h p hp
    have hle := hmax p hp
    simp only [lowLe, lowKey, lexLe, Bool.or_eq_true, Bool.and_eq_true,
      decide_eq_true_eq] at hle
    rw [checkerCall_lower_ok] at h
    rw [checkerCall_lower_ok]
    rcases hle with hlt | ⟨heq, _⟩
    · have hbv : b ≤ v := by split at h <;> omega
      split <;> omega
    · have hst := huni p hp (b, s) hmem heq
      rw [hst, heq]
      exact h
  · intro h
    exact h (b, s) hmem

theorem uppers_collapse {cs : List BoundChecker} {b : Int} {s : Bool} {v : Int}
    (hsel : selUpper cs = some (b, s))
    (huni : ∀ p ∈ uppersOf cs, ∀ q ∈ uppersOf cs, p.1 = q.1 → p.2 = q.2) :
    (exOk (checkerCall (.upper b s) v) = true ↔
      ∀ p ∈ uppersOf cs, exOk (checkerCall (.upper p.1 p.2) v) = true) := by
  obtain ⟨hmem, hmin⟩ := selUpper_spec hsel
  constructor
  · intro h p hp
    have hle := hmin p hp
    simp only [upLe, upKey, lexLe, Bool.or_eq_true, Bool.and_eq_true,
      decide_eq_true_eq] at hle
    rw [checkerCall_upper_ok] at h
    rw [checkerCall_upper_ok]
    rcases hle with hlt | ⟨heq, _⟩
    · have hbv : v ≤ b := by split at h <;> omega
      split <;> omega
    · have hst := huni p hp (b, s) hmem heq.symm
      rw [hst, ← heq]
      exact h
  · intro h
    exact h (b, s) hmem

/-! ### Claim C2 and C3 theorems -/

/-- C2 (counterexample): composing `LowerBound(5, strict=True)` with
`LowerBound(5, strict=False)` succeeds and retains only the non-strict bound
(the sort key puts the strict checker first at ties and the code keeps the
last), so the composite accepts 5 although the strict individual checker
rejects it — the claimed accept-iff-every-individual-accepts equivalence
fails at shared bound values with mixed strictness. -/
theorem c2_tie_strictness_counterexample :
    compositeInit [BoundChecker.lower 5 true, BoundChecker.lower 5 false] =
      .ok ⟨[BoundChecker.lower 5 false]⟩ ∧
    exOk (compositeCall ⟨[BoundChecker.lower 5 false]⟩ 5) = true ∧
    exOk (checkerCall (BoundChecker.lower 5 true) 5) = false := ⟨rfl, rfl, rfl⟩

/-- C2 (amended): for every list of lower-bound and upper-bound checkers whose
composition succeeds, and in which no two lower-bound checkers and no two
upper-bound checkers share a bound value with different strictness, the
composite accepts a value exactly when every individual checker accepts it
(the composition collapses to the tightest single lower and upper bound).
When strict and non-strict checkers share the retained bound value the code
keeps the non-strict one, so the equivalence fails there (see the
counterexample). -/
theorem c2_composite_accepts_iff_all_accept
    (cs : List BoundChecker) (c : CompositeConstraintChecker) (v : Int)
    (hinit : compositeInit cs = .ok c)
    (huniL : ∀ p ∈ lowersOf cs, ∀ q ∈ lowersOf cs, p.1 = q.1 → p.2 = q.2)
    (huniU : ∀ p ∈ uppersOf cs, ∀ q ∈ uppersOf cs, p.1 = q.1 → p.2 = q.2) :
    (exOk (compositeCall c v) = true ↔ ∀ ck ∈ cs, exOk (checkerCall ck v) = true) := by
  have hck := compositeInit_ok_checkers hinit
  rw [forall_checkers_split]
  unfold compositeCall
  rw [hck]
  cases hL : selLower cs with
  | none =>
    have h1 : lowersOf cs = [] := selLower_none_iff.mp hL
    cases hU : selUpper cs with
    | none =>
      have h2 : uppersOf cs = [] := selUpper_none_iff.mp hU
      simp [checkerListCall, exOk, h1, h2]
    | some p =>
      obtain ⟨ub, us⟩ := p
      rw [List.nil_append, checkerListCall_ok]
      simp only [List.forall_mem_singleton]
      rw [uppers_collapse hU huniU, h1]
      simp
  | some p =>
    obtain ⟨lb, ls⟩ := p
    cases hU : selUpper cs with
    | none =>
      have h2 : uppersOf cs = [] := selUpper_none_iff.mp hU
      rw [checkerListCall_ok]
      simp only [List.append_nil, List.forall_mem_singleton]
      rw [lowers_collapse hL huniL, h2]
      simp
    | some q =>
      obtain ⟨ub, us⟩ := q
      rw [checkerListCall_ok]
      simp only [List.cons_append, List.nil_append, List.forall_mem_cons,
        List.forall_mem_nil, and_true]
      rw [lowers_collapse hL huniL, uppers_collapse hU huniU]
      tauto

/-- Witness for C2 (amended) at the spec's own example: composing
`LowerBound(3, strict=False)` and `UpperBound(10, strict=False)` succeeds and
the composite accepts 5 exactly when both individual checkers accept 5. -/
theorem c2_composite_accepts_iff_all_accept_witness :
    compositeInit [BoundChecker.lower 3 false, BoundChecker.upper 10 false] =
      .ok ⟨[BoundChecker.lower 3 false, BoundChecker.upper 10 false]⟩ ∧
    (exOk (compositeCall ⟨[BoundChecker.lower 3 false, BoundChecker.upper 10 false]⟩ 5) = true ↔
      ∀ ck ∈ [BoundChecker.lower 3 false, BoundChecker.upper 10 false],
        exOk (checkerCall ck 5) = true) := by
  refine ⟨rfl, ?_⟩
  refine c2_composite_accepts_iff_all_accept _ _ 5 rfl ?_ ?_
  · have hl : lowersOf [BoundChecker.lower 3 false, BoundChecker.upper 10 false] =
        [(3, false)] := rfl
    rw [hl]
    intro p hp q hq _
    rw [List.mem_singleton] at hp hq
    subst hp; subst hq; rfl
  · have hu : uppersOf [BoundChecker.lower 3 false, BoundChecker.upper 10 false] =
        [(10, false)] := rfl
    rw [hu]
    intro p hp q hq _
    rw [List.mem_singleton] at hp hq
    subst hp; subst hq; rfl

/-- C3 (code bug): composing `LowerBound(10, strict=False)` with
`UpperBound(5, strict=False)` is unsatisfiable (a non-strict lower bound
strictly greater than a non-strict upper bound), yet
`CompositeConstraintChecker.__init__` raises no incompatibility error — its
case analysis has no branch for two non-strict bounds — and the resulting
composite then rejects every value at check time. -/
theorem c3_nonstrict_unsat_composition_not_rejected :
    compositeInit [BoundChecker.lower 10 false, BoundChecker.upper 5 false] =
      .ok ⟨[BoundChecker.lower 10 false, BoundChecker.upper 5 false]⟩ ∧
    ∀ v : Int,
      exOk (compositeCall ⟨[BoundChecker.lower 10 false, BoundChecker.upper 5 false]⟩ v) =
        false := by
  refine ⟨rfl, ?_⟩
  intro v
  by_cases hv : v < 10
  · simp [compositeCall, checkerListCall, checkerCall, exOk, hv]
  · have hv2 : v > 5 := by omega
    simp [compositeCall, checkerListCall, checkerCall, exOk, hv, hv2]

/-! ## Values and error kinds

Python configuration values flowing through Arg/ArgsGroup resolution: `int`,
`str`, `bool` literals, `None`, and the `DYNAMIC_DEFAULT_FLAG` sentinel object
from DynamicDefaults.py.
-/

/-- A raw or resolved configuration value. `vDyn` is the
`DYNAMIC_DEFAULT_FLAG` sentinel marking an unresolved dynamic default. -/
inductive Value where
  | vInt (n : Int)
  | vStr (s : String)
  | vBool (b : Bool)
  | vNone
  | vDyn
deriving DecidableEq

/-- The closed set of option value types (`Arg.type`). -/
inductive PyType where
  | int
  | str
  | bool
deriving DecidableEq

/-- Error kinds raised during resolution, mirroring the assertions and raised
exceptions of the source (spec section 7 gives them these names).
`unrecognizedTokens` never occurs here: the orchestrator raises it with a
distinct exception type (`argparse.ArgumentError`), modelled separately in
`RunResult`. -/
inductive PErr where
  | typeCastError (msg : String)
  | typeMismatchError (msg : String)
  | invalidChoiceError (msg : String)
  | constraintViolationError (msg : String)
  | orderingError (msg : String)
  | unknownFieldError (msg : String)
  | duplicateFieldError (msg : String)
  | alreadyConsumedError (msg : String)
  | unexpectedFieldError (msg : String)
  | missingFieldNameError (msg : String)
  | internalError (msg : String)
  | fuelExhausted
deriving DecidableEq

/-! ## Dynamic defaults (DynamicDefaults.py) -/

/-- `DynamicDefaults` dataclass: the governing field name, the fallback value,
and the `default_map` list of `(values-tuple, default)` pairs. -/
structure DynamicDefaults where
  default_field : String
  fallback_value : Value
  default_map : List (List Value × Value)

/-- One Python dict update `d[k] = v`. -/
def dictUpdate (d : Value → Option Value) (k v : Value) : Value → Option Value :=
  fun x => if x = k then some v else d x

/-- The `__post_init__` loop building `self._default_dict`: for each pair,
`_default_dict.update({value: default for value in values})` (later pairs
override earlier ones). -/
def buildDictFrom (acc : Value → Option Value) :
    List (List Value × Value) → (Value → Option Value)
  | [] => acc
  | (values, default) :: rest =>
    buildDictFrom (values.foldl (fun a x => dictUpdate a x default) acc) rest

/-- The `_default_dict` of a `DynamicDefaults` instance. -/
def DynamicDefaults.defaultDict (dd : DynamicDefaults) : Value → Option Value :=
  buildDictFrom (fun _ => none) dd.default_map

/-- `DynamicDefaults.get_dynamic_default`: the dict entry for the depending
value if present, else the fallback. -/
def DynamicDefaults.get_dynamic_default (dd : DynamicDefaults) (depending_value : Value) :
    Value :=
  match dd.defaultDict depending_value with
  | some d => d
  | none => dd.fallback_value

/-- Declarative reading of the specification's `value_map` lookup: the default
paired with the last `values` tuple containing the governing value (matching
Python dict-update semantics where later pairs shadow earlier ones), or
nothing when the value is not a key of the map. -/
def valueMapLookup : List (List Value × Value) → Value → Option Value
  | [], _ => none
  | (values, default) :: rest, v =>
    match valueMapLookup rest v with
    | some d => some d
    | none => if v ∈ values then some default else none

theorem foldl_dictUpdate (default v : Value) :
    ∀ (values : List Value) (acc : Value → Option Value),
      (values.foldl (fun a x => dictUpdate a x default) acc) v =
        if v ∈ values then some default else acc v := by
  intro values
  induction values with
  | nil => intro acc; simp
  | cons x rest ih =>
    intro acc
    rw [List.foldl_cons, ih]
    by_cases hv : v ∈ rest
    · simp [hv]
    · by_cases hx : v = x
      · simp [hv, hx, dictUpdate]
      · simp [hv, hx, dictUpdate]

theorem buildDictFrom_eq (v : Value) :
    ∀ (m : List (List Value × Value)) (acc : Value → Option Value),
      buildDictFrom acc m v =
        match valueMapLookup m v with
        | some d => some d
        | none => acc v := by
  intro m
  induction m with
  | nil => intro acc; rfl
  | cons p rest ih =>
    intro acc
    obtain ⟨values, default⟩ := p
    rw [buildDictFrom, ih]
    simp only [valueMapLookup]
    cases valueMapLookup rest v with
    | some d => rfl
    | none =>
      rw [foldl_dictUpdate]
      by_cases hv : v ∈ values
      · simp [hv]
      · simp [hv]

/-- C5: resolving a dynamic default returns the value mapped to the governing
value in the specification's value map when that value is a key of the map
(later pairs shadowing earlier ones, per dict-update semantics), and the
fallback value otherwise. -/
theorem c5_get_dynamic_default_map_else_fallback (dd : DynamicDefaults) (v : Value) :
    dd.get_dynamic_default v = (valueMapLookup dd.default_map v).getD dd.fallback_value := by
  unfold DynamicDefaults.get_dynamic_default DynamicDefaults.defaultDict
  rw [buildDictFrom_eq]
  cases valueMapLookup dd.default_map v with
  | some d => rfl
  | none => rfl

/-! ## Option declarations and configuration groups (Arg.py, ArgsGroup.py)

The slot model: an `ArgsGroup` attribute is either an unresolved `Arg`, a
nested `ArgsGroup`, or a plain resolved config value
(`get_sanitized_attributes_list` hides the bookkeeping attributes, so only
real slots are modelled).  `children_args` is the spawn map from a resolved
value to the zero-argument group constructor (modelled by the group value the
constructor builds).
-/

/-- A `constraint_check_fn`: may raise (error) or return a boolean. -/
abbrev ConstraintFn := Value → Except PErr Bool

mutual
/-- The `Arg` dataclass of Arg.py, after `__post_init__` (when
`dynamic_defaults_dict` is given, `dynamic_default` is set and `default`
becomes the `DYNAMIC_DEFAULT_FLAG`). -/
inductive ArgD where
  | mk (name : String) (default : Value) (choices : Option (List Value))
       (ty : PyType) (constraint_check_fn : Option ConstraintFn)
       (children_args : List (Value × ArgsGroup)) (dynamic_default : Option DynamicDefaults)

/-- One attribute slot of an `ArgsGroup`. -/
inductive Slot where
  | argSlot (a : ArgD)
  | groupSlot (g : ArgsGroup)
  | configSlot (v : Value)

/-- An `ArgsGroup` node: name, description, `_field_name`,
`_args_are_consumed`, and the ordered attribute slots. -/
inductive ArgsGroup where
  | mk (group_name : String) (group_description : Option String)
       (field_name : Option String) (args_are_consumed : Bool)
       (slots : List (String × Slot))
end

def ArgD.name : ArgD → String
  | .mk n _ _ _ _ _ _ => n

def ArgD.default : ArgD → Value
  | .mk _ d _ _ _ _ _ => d

def ArgD.choices : ArgD → Option (List Value)
  | .mk _ _ c _ _ _ _ => c

def ArgD.ty : ArgD → PyType
  | .mk _ _ _ t _ _ _ => t

def ArgD.constraint_check_fn : ArgD → Option ConstraintFn
  | .mk _ _ _ _ f _ _ => f

def ArgD.children_args : ArgD → List (Value × ArgsGroup)
  | .mk _ _ _ _ _ ca _ => ca

def ArgD.dynamic_default : ArgD → Option DynamicDefaults
  | .mk _ _ _ _ _ _ dd => dd

def ArgsGroup.group_name : ArgsGroup → String
  | .mk n _ _ _ _ => n

def ArgsGroup.group_description : ArgsGroup → Option String
  | .mk _ d _ _ _ => d

def ArgsGroup.field_name : ArgsGroup → Option String
  | .mk _ _ f _ _ => f

def ArgsGroup.args_are_consumed : ArgsGroup → Bool
  | .mk _ _ _ c _ => c

def ArgsGroup.slots : ArgsGroup → List (String × Slot)
  | .mk _ _ _ _ s => s

/-! ### Arg operations (Arg.py) -/

/-- Python `self.type(value)` for the closed set of value types: `int(...)`,
`str(...)`, `bool(...)` conversion semantics, raising `TypeError`/`ValueError`
(modelled as `typeCastError`) where Python raises. `int` of a string parses an
integer literal; `str` of the `DYNAMIC_DEFAULT_FLAG` sentinel renders the
object (address elided); `bool` of any object is `True`. -/
def pyCast : PyType → Value → Except PErr Value
  | .int, .vInt n => .ok (.vInt n)
  | .int, .vBool b => .ok (.vInt (if b then 1 else 0))
  | .int, .vStr s =>
    match s.toInt? with
    | some n => .ok (.vInt n)
    | none => .error (.typeCastError "invalid literal for int()")
  | .int, .vDyn => .error (.typeCastError "int() argument must be a string or a number")
  | .int, .vNone => .error (.typeCastError "int() argument cannot be NoneType")
  | .str, .vStr s => .ok (.vStr s)
  | .str, .vInt n => .ok (.vStr (toString n))
  | .str, .vBool b => .ok (.vStr (if b then "True" else "False"))
  | .str, .vDyn => .ok (.vStr "<DYNAMIC_DEFAULT_FLAG object>")
  | .str, .vNone => .ok (.vStr "None")
  | .bool, .vBool b => .ok (.vBool b)
  | .bool, .vInt n => .ok (.vBool (decide (n ≠ 0)))
  | .bool, .vStr s => .ok (.vBool (decide (s ≠ "")))
  | .bool, .vDyn => .ok (.vBool true)
  | .bool, .vNone => .ok (.vBool false)

/-- `Arg.cast_value_to_arg_type`: `None` passes through, otherwise cast via
`self.type(value)`. -/
def ArgD.cast_value_to_arg_type (a : ArgD) (value : Value) : Except PErr Value :=
  match value with
  | .vNone => .ok .vNone
  | v => pyCast a.ty v

/-- Python `isinstance(value, ty)` for the modelled types (`bool` is a
subclass of `int`). -/
def isInstance : Value → PyType → Bool
  | .vInt _, .int => true
  | .vBool _, .bool => true
  | .vBool _, .int => true
  | .vStr _, .str => true
  | _, _ => false

/-- `Arg.check_constraint`: call `constraint_check_fn` when set (its boolean
result is returned, but any exception it raises propagates); `True`
otherwise. -/
def ArgD.check_constraint (a : ArgD) (value : Value) : Except PErr Bool :=
  match a.constraint_check_fn with
  | some f => f value
  | none => .ok true

/-- `Arg.sanitize_value_for_consumption`: cast, assert the type, run the
constraint check discarding its boolean result, then assert membership of the
raw value in `choices` (when choices are declared non-empty and the raw value
is not `None`), and return the cast value. -/
def ArgD.sanitize_value_for_consumption (a : ArgD) (value : Value) : Except PErr Value :=
  match a.cast_value_to_arg_type value with
  | .error e => .error e
  | .ok new_value =>
    if ¬(isInstance new_value a.ty = true ∨ new_value = .vNone) then
      .error (.typeMismatchError "Invalid value type for arg")
    else
      match a.check_constraint new_value with
      | .error e => .error e
      | .ok _ =>
        match a.choices with
        | some choices =>
          if value ≠ .vNone ∧ choices.length ≥ 1 ∧ value ∉ choices then
            .error (.invalidChoiceError "Received value that is not in choices")
          else .ok new_value
        | none => .ok new_value

/-- `Arg.spawn_children_args`: the group constructor registered in the spawn
map for the final value, if any. -/
def ArgD.spawn_children_args (a : ArgD) (value : Value) : Option ArgsGroup :=
  (a.children_args.find? (fun p => p.1 = value)).map (fun p => p.2)

/-! ### Claim C6 and C10 theorems -/

/-- A constraint function behaving like `LowerBoundChecker(5)`: raises on
integer values below 5, returns `True` otherwise. -/
def lowerBound5Fn : ConstraintFn := fun v =>
  match v with
  | .vInt n =>
    if n < 5 then .error (.constraintViolationError "Value is less than the lower bound")
    else .ok true
  | _ => .ok true

/-- An integer option with `choices=[1, 2]` and the lower-bound-5 constraint
(for the C6 counterexample). -/
def exArgChoicesAndConstraint : ArgD :=
  .mk "mode" .vNone (some [.vInt 1, .vInt 2]) .int (some lowerBound5Fn) [] none

/-- C6 (counterexample): sanitizing the value 3 with
`exArgChoicesAndConstraint` — a value that is both outside the allowed
choices and in violation of the constraint — reports
`ConstraintViolationError`, not `InvalidChoiceError`: the code applies the
constraint before the choice membership check (`Arg.sanitize_value_for_consumption`
checks the constraint at line 133 and choices at lines 135-136). -/
theorem c6_choice_checked_after_constraint_counterexample :
    Value.vInt 3 ∉ [Value.vInt 1, Value.vInt 2] ∧
    exArgChoicesAndConstraint.sanitize_value_for_consumption (.vInt 3) =
      .error (.constraintViolationError "Value is less than the lower bound") :=
  ⟨by decide, rfl⟩

/-- C6 (amended): for an option with non-empty allowed choices, sanitizing a
non-absent raw value outside the choices fails with `InvalidChoiceError`
provided the cast and type assertions succeed and the constraint check does
not raise; the choice check runs after the constraint, so when the constraint
raises, its error is reported instead. -/
theorem c6_invalid_choice_after_constraint
    (a : ArgD) (value new_value : Value) (cs : List Value)
    (hch : a.choices = some cs) (hlen : cs.length ≥ 1)
    (hnn : value ≠ .vNone) (hmem : value ∉ cs)
    (hcast : a.cast_value_to_arg_type value = .ok new_value)
    (hty : isInstance new_value a.ty = true ∨ new_value = .vNone) :
    (∀ b2, a.check_constraint new_value = .ok b2 →
      a.sanitize_value_for_consumption value =
        .error (.invalidChoiceError "Received value that is not in choices")) ∧
    (∀ e, a.check_constraint new_value = .error e →
      a.sanitize_value_for_consumption value = .error e) := by
  constructor
  · intro b2 hcon
    simp only [ArgD.sanitize_value_for_consumption, hcast, hcon, hch,
      if_neg (not_not_intro hty)]
    rw [if_pos ⟨hnn, hlen, hmem⟩]
  · intro e hcon
    simp only [ArgD.sanitize_value_for_consumption, hcast, hcon, hch,
      if_neg (not_not_intro hty)]

/-- Witness for C6 (amended) at the spec example: an option with
`allowed_choices = {"train", "val"}` sanitizing `"test"` fails with
`InvalidChoiceError`. -/
theorem c6_invalid_choice_after_constraint_witness :
    (ArgD.mk "split" .vNone (some [.vStr "train", .vStr "val"]) .str none [] none).sanitize_value_for_consumption
        (.vStr "test") =
      .error (.invalidChoiceError "Received value that is not in choices") :=
  (c6_invalid_choice_after_constraint
    (ArgD.mk "split" .vNone (some [.vStr "train", .vStr "val"]) .str none [] none)
    (.vStr "test") (.vStr "test") [.vStr "train", .vStr "val"]
    rfl (by decide) (by decide) (by decide) rfl (Or.inl rfl)).1 true rfl

/-- A constraint function that signals failure by returning `False` without
raising. -/
def alwaysFalseFn : ConstraintFn := fun _ => .ok false

/-- C10 (implicit): the boolean result of `Arg.check_constraint` is discarded
by `Arg.sanitize_value_for_consumption` — when the constraint function
returns (even `False`) rather than raising, sanitization succeeds and returns
the cast value, provided the cast, the type assertion and the choice check
pass. -/
theorem c10_constraint_bool_result_discarded
    (a : ArgD) (value new_value : Value) (f : ConstraintFn)
    (hf : a.constraint_check_fn = some f)
    (hcast : a.cast_value_to_arg_type value = .ok new_value)
    (hty : isInstance new_value a.ty = true ∨ new_value = .vNone)
    (hfalse : f new_value = .ok false)
    (hchoice : ∀ cs, a.choices = some cs → value = .vNone ∨ cs.length = 0 ∨ value ∈ cs) :
    a.sanitize_value_for_consumption value = .ok new_value := by
  unfold ArgD.sanitize_value_for_consumption
  have hcon : a.check_constraint new_value = .ok false := by
    unfold ArgD.check_constraint
    rw [hf]
    exact hfalse
  simp only [hcast, hcon, if_neg (not_not_intro hty)]
  cases hc : a.choices with
  | none => rfl
  | some cs =>
    have hred : (match (some cs : Option (List Value)) with
        | some choices =>
          if value ≠ Value.vNone ∧ choices.length ≥ 1 ∧ value ∉ choices then
            Except.error (PErr.invalidChoiceError "Received value that is not in choices")
          else Except.ok new_value
        | none => Except.ok new_value) =
        if value ≠ Value.vNone ∧ cs.length ≥ 1 ∧ value ∉ cs then
          Except.error (PErr.invalidChoiceError "Received value that is not in choices")
        else Except.ok new_value := rfl
    rw [hred]
    rcases hchoice cs hc with h | h | h
    · rw [if_neg]
      rintro ⟨h1, _, _⟩
      exact h1 h
    · rw [if_neg]
      rintro ⟨_, h2, _⟩
      omega
    · rw [if_neg]
      rintro ⟨_, _, h3⟩
      exact h3 h

/-- Witness for C10: an integer option whose constraint function returns
`False` on every value still sanitizes 3 successfully. -/
theorem c10_constraint_bool_result_discarded_witness :
    alwaysFalseFn (.vInt 3) = .ok false ∧
    (ArgD.mk "log_every" (.vInt 50) none .int (some alwaysFalseFn) [] none).sanitize_value_for_consumption
        (.vInt 3) =
      .ok (.vInt 3) :=
  ⟨rfl, c10_constraint_bool_result_discarded
    (ArgD.mk "log_every" (.vInt 50) none .int (some alwaysFalseFn) [] none)
    (.vInt 3) (.vInt 3) alwaysFalseFn rfl rfl (Or.inl rfl) rfl
    (fun cs h => by simp [ArgD.choices] at h)⟩

/-! ### ArgsGroup slot access and mutation (ArgsGroup.py) -/

/-- Attribute lookup on a group (`getattr` restricted to the sanitized
slots). -/
def slotLookup (g : ArgsGroup) (field : String) : Option Slot :=
  (g.slots.find? (fun p => decide (p.1 = field))).map (fun p => p.2)

/-- `ArgsGroup.__setattr__`: replace an existing attribute in place, or append
a new one (attachment of a spawned child appends its slot at the end, which is
also where Python appends it to `_children_argsgroup`). -/
def pySetAttr (g : ArgsGroup) (field : String) (s : Slot) : ArgsGroup :=
  match g with
  | .mk n d f c slots =>
    .mk n d f c
      (if slots.any (fun p => decide (p.1 = field)) then
        slots.map (fun p => if p.1 = field then (p.1, s) else p)
      else slots ++ [(field, s)])

/-- `ArgsGroup.get_children_argsgroup` (`self._children_argsgroup`): the
nested groups, in attachment order (static slots in declaration order; spawned
children appended at the end). -/
def ArgsGroup.get_children_argsgroup (g : ArgsGroup) : List ArgsGroup :=
  g.slots.filterMap (fun p => match p.2 with | .groupSlot h => some h | _ => none)

/-- The nested groups together with the field under which each is attached
(for path-indexed traversal). -/
def ArgsGroup.childrenWithFields (g : ArgsGroup) : List (String × ArgsGroup) :=
  g.slots.filterMap (fun p => match p.2 with | .groupSlot h => some (p.1, h) | _ => none)

/-- `ArgsGroup.get_children_fields_to_values`: every slot except nested
groups, i.e. unresolved `Arg`s and plain resolved values, keyed by field. -/
def ArgsGroup.get_children_fields_to_values (g : ArgsGroup) : List (String × Slot) :=
  g.slots.filter (fun p => match p.2 with | .groupSlot _ => false | _ => true)

/-- `ArgsGroup.get_children_args_fields_to_value`: the unresolved `Arg` slots,
in declaration order. -/
def ArgsGroup.get_children_args_fields_to_value (g : ArgsGroup) : List (String × ArgD) :=
  g.slots.filterMap (fun p => match p.2 with | .argSlot a => some (p.1, a) | _ => none)

mutual
/-- `ArgsGroup._get_all_children_argsgroup_dfs` (mutually with the walk over
the slot list): each child followed by its own descendants. -/
def ArgsGroup.get_all_children_argsgroup_dfs : ArgsGroup → List ArgsGroup
  | .mk _ _ _ _ slots => slotsDfs slots

def slotsDfs : List (String × Slot) → List ArgsGroup
  | [] => []
  | (_, .groupSlot h) :: rest => (h :: h.get_all_children_argsgroup_dfs) ++ slotsDfs rest
  | (_, .argSlot _) :: rest => slotsDfs rest
  | (_, .configSlot _) :: rest => slotsDfs rest
end

theorem childrenSizes_le (slots : List (String × Slot)) :
    ((slots.filterMap (fun p => match p.2 with
        | .groupSlot h => some h
        | _ => none)).map sizeOf).sum ≤ sizeOf slots := by
  induction slots with
  | nil => simp
  | cons p rest ih =>
    obtain ⟨nm, sl⟩ := p
    cases sl with
    | groupSlot h =>
      simp only [List.filterMap_cons, List.map_cons, List.sum_cons]
      simp only [List.cons.sizeOf_spec, Prod.mk.sizeOf_spec, Slot.groupSlot.sizeOf_spec]
      omega
    | argSlot a =>
      simp only [List.filterMap_cons]
      simp only [List.cons.sizeOf_spec, Prod.mk.sizeOf_spec]
      omega
    | configSlot v =>
      simp only [List.filterMap_cons]
      simp only [List.cons.sizeOf_spec, Prod.mk.sizeOf_spec]
      omega

theorem ArgsGroup.children_sizes_lt (g : ArgsGroup) :
    ((g.get_children_argsgroup).map sizeOf).sum < sizeOf g := by
  cases g with
  | mk n d f c slots =>
    have := childrenSizes_le slots
    simp only [ArgsGroup.get_children_argsgroup, ArgsGroup.slots]
    simp only [ArgsGroup.mk.sizeOf_spec]
    omega

theorem ArgsGroup.childrenWithFields_snd (g : ArgsGroup) :
    (g.childrenWithFields).map Prod.snd = g.get_children_argsgroup := by
  cases g with
  | mk n d f c slots =>
    simp only [ArgsGroup.childrenWithFields, ArgsGroup.get_children_argsgroup, ArgsGroup.slots]
    induction slots with
    | nil => rfl
    | cons p rest ih =>
      obtain ⟨nm, sl⟩ := p
      cases sl <;> simp_all [List.filterMap_cons]

/-- `ArgsGroup._get_all_children_argsgroup_bfs`: breadth-first traversal with
an explicit queue (`collections.deque`). -/
def bfsAux : List ArgsGroup → List ArgsGroup
  | [] => []
  | g :: rest => g :: bfsAux (rest ++ g.get_children_argsgroup)
termination_by q => (q.map sizeOf).sum
decreasing_by
  simp only [List.map_append, List.sum_append, List.map_cons, List.sum_cons]
  have := g.children_sizes_lt
  omega

/-- `ArgsGroup.get_all_children_argsgroup(ordering='bfs')`. -/
def ArgsGroup.get_all_children_argsgroup_bfs (g : ArgsGroup) : List ArgsGroup :=
  bfsAux g.get_children_argsgroup

/-- Breadth-first traversal yielding the path (list of attachment fields from
the start group) of every descendant group, in the same order as
`_get_all_children_argsgroup_bfs` yields the groups themselves.  The queue
recursion is bounded by `fuel` (one unit per dequeued group) and reports
exhaustion as an error instead of truncating, so a successful result is
exactly the unbounded breadth-first listing. -/
def bfsPathsAux : Nat → List (List String × ArgsGroup) → Except PErr (List (List String))
  | _, [] => .ok []
  | 0, _ :: _ => .error .fuelExhausted
  | fuel + 1, (p, g) :: rest =>
    match bfsPathsAux fuel (rest ++ (g.childrenWithFields).map (fun q => (p ++ [q.1], q.2))) with
    | .error e => .error e
    | .ok ps => .ok (p :: ps)

/-- The paths of all descendant groups of `g`, breadth-first. -/
def ArgsGroup.bfsPaths (g : ArgsGroup) (fuel : Nat) : Except PErr (List (List String)) :=
  bfsPathsAux fuel ((g.childrenWithFields).map (fun q => ([q.1], q.2)))

/-! ### Tree-wide field lookup and dynamic defaults (ArgsGroup.py) -/

/-- `ArgsGroup.get_all_children_fields_to_values` as a lookup:
`result` starts from the root group's own non-group slots and is
`update`d with each descendant group's slots in depth-first order, so the
last group in `[root] ++ dfs` holding the field wins. -/
def lookupFieldInTree (root : ArgsGroup) (field : String) : Option Slot :=
  ((root :: root.get_all_children_argsgroup_dfs).reverse.findSome?
    (fun g => ((g.get_children_fields_to_values).find?
        (fun p => decide (p.1 = field))).map (fun p => p.2)))

/-- `ArgsGroup.get_value_from_field_in_tree`: search the whole tree from the
root; the membership assertion fails with an `UnknownFieldError` kind. -/
def get_value_from_field_in_tree (root : ArgsGroup) (field : String) : Except PErr Slot :=
  match lookupFieldInTree root field with
  | some s => .ok s
  | none => .error (.unknownFieldError "Field not in ArgsGroup tree")

/-- `ArgsGroup.get_dynamic_default_for_arg` (the consuming group's tree root
is passed explicitly: the source reaches it via `self.root_argsgroup`): look
the governing field up across the whole tree, fail with the `OrderingError`
kind if it is still an unresolved `Arg`, else resolve the dynamic default
against its value. -/
def get_dynamic_default_for_arg (root : ArgsGroup) (arg : ArgD) : Except PErr Value :=
  match arg.dynamic_default with
  | none => .error (.internalError "arg.dynamic_default must be a DynamicDefaults instance")
  | some dd =>
    match get_value_from_field_in_tree root dd.default_field with
    | .error e => .error e
    | .ok (.argSlot _) =>
      .error (.orderingError "Default field must be consumed before setting dependent Arg")
    | .ok (.groupSlot _) =>
      .error (.internalError "unreachable: groups are excluded from fields-to-values")
    | .ok (.configSlot v) => .ok (dd.get_dynamic_default v)

/-! ### Path-indexed access to the shared tree

The Python code mutates group objects in place through shared references; the
model threads the root group and addresses the group being consumed by its
path of attachment fields from the root.
-/

/-- Follow a path of nested-group fields from a group. -/
def getAt (g : ArgsGroup) : List String → Option ArgsGroup
  | [] => some g
  | f :: rest =>
    match slotLookup g f with
    | some (.groupSlot h) => getAt h rest
    | _ => none

/-- Apply an update to the group at a path (identity when the path is
dangling, which the resolution flow never produces). -/
def updateAt (g : ArgsGroup) : List String → (ArgsGroup → ArgsGroup) → ArgsGroup
  | [], upd => upd g
  | f :: rest, upd =>
    match g with
    | .mk n d fn c slots =>
      .mk n d fn c (slots.map (fun p =>
        if p.1 = f then
          match p.2 with
          | .groupSlot h => (p.1, .groupSlot (updateAt h rest upd))
          | s => (p.1, s)
        else p))

/-- `ArgsGroup.mark_self_as_parsed`. -/
def ArgsGroup.mark_self_as_parsed : ArgsGroup → ArgsGroup
  | .mk n d f _ s => .mk n d f true s

/-! ### Consume and spawn (ArgsGroup.py) -/

/-- `ArgsGroup.spawn_args_children`, addressed by the consuming group's path
in the tree: when the spawn map yields a constructor for the sanitized value,
instantiate it, require its `field_name` to be set and not to collide with a
key of `get_children_fields_to_values()` (`DuplicateFieldError` kind
otherwise — note this dict excludes nested-group slots), attach the child
with `setattr` and record its field in the spawn list. -/
def spawn_args_children (root : ArgsGroup) (path : List String) (arg : ArgD)
    (new_value : Value) (spawned : List String) : Except PErr (ArgsGroup × List String) :=
  match arg.spawn_children_args new_value with
  | none => .ok (root, spawned)
  | some child =>
    match child.field_name with
    | none => .error (.missingFieldNameError "Children argsgroup need to have a field_name")
    | some fname =>
      match getAt root path with
      | none => .error (.internalError "missing group at path")
      | some g =>
        if (g.get_children_fields_to_values).any (fun p => decide (p.1 = fname)) then
          .error (.duplicateFieldError "Children argsgroup field_name already exists")
        else
          .ok (updateAt root path (fun h => pySetAttr h fname (.groupSlot child)),
               spawned ++ [fname])

/-- One iteration of the loop body of
`ArgsGroup.process_and_consume_args_with_namespace`: resolve the namespace
field against the pre-computed args dict (`UnexpectedFieldError` kind when
absent), substitute the dynamic default when the provided raw value is the
`DYNAMIC_DEFAULT_FLAG`, sanitize, spawn, and consume the arg into a plain
value slot. -/
def consumeNamespaceField (root : ArgsGroup) (path : List String)
    (children_args_dict : List (String × ArgD)) (spawned : List String)
    (field : String) (value : Value) : Except PErr (ArgsGroup × List String) :=
  match (children_args_dict.find? (fun p => decide (p.1 = field))).map (fun p => p.2) with
  | none => .error (.unexpectedFieldError "Invalid field in namespace")
  | some arg =>
    match (if value = .vDyn then get_dynamic_default_for_arg root arg else .ok value) with
    | .error e => .error e
    | .ok value2 =>
      match arg.sanitize_value_for_consumption value2 with
      | .error e => .error e
      | .ok new_value =>
        match spawn_args_children root path arg new_value spawned with
        | .error e => .error e
        | .ok (root2, spawned2) =>
          .ok (updateAt root2 path (fun h => pySetAttr h field (.configSlot new_value)),
               spawned2)

/-- The namespace loop of `process_and_consume_args_with_namespace`. -/
def consumeFields (root : ArgsGroup) (path : List String)
    (children_args_dict : List (String × ArgD)) (spawned : List String) :
    List (String × Value) → Except PErr (ArgsGroup × List String)
  | [] => .ok (root, spawned)
  | (field, value) :: rest =>
    match consumeNamespaceField root path children_args_dict spawned field value with
    | .error e => .error e
    | .ok (root2, spawned2) => consumeFields root2 path children_args_dict spawned2 rest

/-- `ArgsGroup.process_and_consume_args_with_namespace`, addressed by path:
guard against double consumption (`AlreadyConsumedError` kind), compute the
args dict once, process every namespace entry in order, then mark the group
as parsed.  Returns the updated root and the spawned children's fields. -/
def process_and_consume_args_with_namespace (root : ArgsGroup) (path : List String)
    (ns : List (String × Value)) : Except PErr (ArgsGroup × List String) :=
  match getAt root path with
  | none => .error (.internalError "missing group at path")
  | some g =>
    if g.args_are_consumed then
      .error (.alreadyConsumedError "_args_are_consumed is True")
    else
      match consumeFields root path (g.get_children_args_fields_to_value) [] ns with
      | .error e => .error e
      | .ok (root2, spawned) =>
        .ok (updateAt root2 path ArgsGroup.mark_self_as_parsed, spawned)

/-! ### Claim C4 and C7 theorems -/

theorem any_name_iff_mem_map {l : List (String × Slot)} {fname : String} :
    (l.any (fun p => decide (p.1 = fname)) = true) ↔ fname ∈ l.map Prod.fst := by
  simp only [List.any_eq_true, decide_eq_true_eq, List.mem_map]

/-- C4: during a group's consume step, an option whose provided raw value is
the `DYNAMIC_DEFAULT_FLAG` marker has its dynamic default computed by looking
the governing field up across the whole tree (from the root); when that field
is still an unresolved `Arg`, this fails with the `OrderingError` kind, and
the failure aborts the consume step; when it is already resolved, the marker
is replaced by the dynamic-default specification applied to the resolved
value. -/
theorem c4_dynamic_default_ordering
    (root : ArgsGroup) (path : List String) (dict : List (String × ArgD))
    (spawned : List String) (field : String) (arg : ArgD) (dd : DynamicDefaults)
    (hfind : (dict.find? (fun p => decide (p.1 = field))).map (fun p => p.2) = some arg)
    (hdd : arg.dynamic_default = some dd) :
    (∀ b, lookupFieldInTree root dd.default_field = some (.argSlot b) →
      get_dynamic_default_for_arg root arg =
        .error (.orderingError "Default field must be consumed before setting dependent Arg") ∧
      consumeNamespaceField root path dict spawned field .vDyn =
        .error (.orderingError "Default field must be consumed before setting dependent Arg")) ∧
    (∀ v, lookupFieldInTree root dd.default_field = some (.configSlot v) →
      get_dynamic_default_for_arg root arg = .ok (dd.get_dynamic_default v)) := by
  constructor
  · intro b hb
    have h1 : get_dynamic_default_for_arg root arg =
        .error (.orderingError "Default field must be consumed before setting dependent Arg") := by
      simp only [get_dynamic_default_for_arg, hdd, get_value_from_field_in_tree, hb]
    refine ⟨h1, ?_⟩
    simp only [consumeNamespaceField, hfind, if_pos, h1]
  · intro v hv
    simp only [get_dynamic_default_for_arg, hdd, get_value_from_field_in_tree, hv]

/-- The dataset-governed dynamic default of the running spec example. -/
def exDD : DynamicDefaults := ⟨"dataset", .vStr "resnet50", [([.vStr "sst2"], .vStr "bert")]⟩

/-- A `model` option whose default is governed by `dataset`. -/
def exModelArg : ArgD := .mk "model" .vDyn none .str none [] (some exDD)

/-- A plain `dataset` option. -/
def exDatasetArg : ArgD := .mk "dataset" (.vStr "sst2") none .str none [] none

/-- A group declaring the governed `model` option strictly before its
governing `dataset` field. -/
def exGroupC4 : ArgsGroup :=
  .mk "ModelConf" none none false
    [("model", .argSlot exModelArg), ("dataset", .argSlot exDatasetArg)]

/-- Witness for C4: with `dataset` declared strictly after the dependent
`model` option (hence still an unresolved `Arg` when `model` is processed),
resolving the marker fails with the `OrderingError` kind, both in
`get_dynamic_default_for_arg` and in the consume-step loop body. -/
theorem c4_dynamic_default_ordering_witness :
    get_dynamic_default_for_arg exGroupC4 exModelArg =
      .error (.orderingError "Default field must be consumed before setting dependent Arg") ∧
    consumeNamespaceField exGroupC4 [] [("model", exModelArg), ("dataset", exDatasetArg)] []
        "model" .vDyn =
      .error (.orderingError "Default field must be consumed before setting dependent Arg") :=
  (c4_dynamic_default_ordering exGroupC4 [] [("model", exModelArg), ("dataset", exDatasetArg)]
    [] "model" exModelArg exDD rfl rfl).1 exDatasetArg rfl

/-- C7 (amended): when the spawn map yields a constructor for the sanitized
value, the instantiated child's `field_name` must be set
(`missingFieldNameError` kind otherwise) and must not collide with an option
or plain-value slot of the consuming group — a `DuplicateFieldError` on such
a collision — but a name already held by a *nested group* slot is not
checked (`get_children_fields_to_values` excludes groups): the spawn then
proceeds without error.  On success the child is attached as a nested group
slot of the consuming group and its field is recorded in the spawn list. -/
theorem c7_spawn_field_name_and_collision
    (root : ArgsGroup) (path : List String) (arg : ArgD) (new_value : Value)
    (spawned : List String) (child g : ArgsGroup)
    (hspawn : arg.spawn_children_args new_value = some child)
    (hg : getAt root path = some g) :
    (child.field_name = none →
      spawn_args_children root path arg new_value spawned =
        .error (.missingFieldNameError "Children argsgroup need to have a field_name")) ∧
    (∀ fname, child.field_name = some fname →
      fname ∈ (g.get_children_fields_to_values).map Prod.fst →
      spawn_args_children root path arg new_value spawned =
        .error (.duplicateFieldError "Children argsgroup field_name already exists")) ∧
    (∀ fname, child.field_name = some fname →
      fname ∉ (g.get_children_fields_to_values).map Prod.fst →
      spawn_args_children root path arg new_value spawned =
        .ok (updateAt root path (fun h => pySetAttr h fname (.groupSlot child)),
             spawned ++ [fname])) := by
  refine ⟨?_, ?_, ?_⟩
  · intro hfn
    simp only [spawn_args_children, hspawn, hfn]
  · intro fname hfn hmem
    simp only [spawn_args_children, hspawn, hfn, hg]
    rw [if_pos (any_name_iff_mem_map.mpr hmem)]
  · intro fname hfn hmem
    simp only [spawn_args_children, hspawn, hfn, hg]
    rw [if_neg (fun hc => hmem (any_name_iff_mem_map.mp hc))]

/-- A pre-existing nested group attached under field `x`. -/
def exChildA : ArgsGroup := .mk "ChildA" none (some "x") false []

/-- A spawnable group whose declared `field_name` is also `x`. -/
def exChildB : ArgsGroup := .mk "ChildB" none (some "x") false []

/-- An option that spawns `exChildB` when resolved to `"go"`. -/
def exSpawnArg : ArgD := .mk "sched" .vNone none .str none [(.vStr "go", exChildB)] none

/-- A group already holding a nested group under `x` and the spawning
option. -/
def exGroupC7 : ArgsGroup :=
  .mk "Root" none none false [("x", .groupSlot exChildA), ("sched", .argSlot exSpawnArg)]

/-- C7 (counterexample): the spawned child's `field_name` `x` already exists
as a slot on the consuming group (a nested group slot), yet
`spawn_args_children` does not raise `DuplicateFieldError` — the collision
check consults `get_children_fields_to_values`, which excludes nested
groups — and instead silently overwrites the slot. -/
theorem c7_nested_group_collision_counterexample :
    slotLookup exGroupC7 "x" = some (.groupSlot exChildA) ∧
    spawn_args_children exGroupC7 [] exSpawnArg (.vStr "go") [] =
      .ok (.mk "Root" none none false
            [("x", .groupSlot exChildB), ("sched", .argSlot exSpawnArg)],
           ["x"]) :=
  ⟨rfl, rfl⟩

/-- A group with no `x` slot, for the C7 witness. -/
def exGroupC7ok : ArgsGroup := .mk "Root" none none false [("sched", .argSlot exSpawnArg)]

/-- Witness for C7 (amended): spawning onto a group with no colliding slot
attaches the child under its `field_name` and records it in the spawn
list. -/
theorem c7_spawn_field_name_and_collision_witness :
    spawn_args_children exGroupC7ok [] exSpawnArg (.vStr "go") [] =
      .ok (.mk "Root" none none false
            [("sched", .argSlot exSpawnArg), ("x", .groupSlot exChildB)],
           ["x"]) := by
  have h := (c7_spawn_field_name_and_collision exGroupC7ok [] exSpawnArg (.vStr "go") []
    exChildB exGroupC7ok rfl rfl).2.2 "x" rfl (by decide)
  rw [h]
  rfl

/-! ## Resolution orchestrator (ArgParser.py)

The external tokenizer (`argparse.parse_known_args`) is out of the core scope
and is modelled at its interface: a token is a resolved name/value pair; a
registration round gives every registered option either the value of its last
matching token or its declared default, and returns the tokens matched by no
registered option, in order.
-/

/-- A raw token, already split into an option name and a raw value. -/
abbrev Token := String × Value

/-- Modelled from the spec: the external tokenizer boundary (spec section 6;
`argparse.ArgumentParser.parse_known_args` is an external collaborator, out of
the core scope).  Input: the registered option descriptors and the remaining
tokens.  Output: a mapping from option name to raw resolved value (the last
matching token wins, the declared default otherwise), plus the tokens consumed
by no registered option.  Unknown tokens are not an error at this boundary. -/
def parse_known_args (args : List ArgD) (tokens : List Token) :
    List (String × Value) × List Token :=
  (args.map (fun a => (a.name,
      match (tokens.filter (fun t => decide (t.1 = a.name))).getLast? with
      | some t => t.2
      | none => a.default)),
   tokens.filter (fun t => !(args.any (fun a => decide (a.name = t.1)))))

/-- The state threaded through `parse_and_process_argsgroup`: the updated
tree, the remaining tokens, the option names registered with the root parser
so far (its help rendering), and the paths of the groups consumed by this
call, in consumption order. -/
structure StepOut where
  root : ArgsGroup
  rem : List Token
  reg : List String
  trace : List (List String)

/-- The loop `for child in spawned_children_argsgroup: rem_args =
parse_and_process_argsgroup(child, root_parser, rem_args)`, abstracted over
the recursive call (`pap'` is `parse_and_process_argsgroup` at the next fuel
level): process each spawned child in order, threading tree, tokens and
registrations, and concatenating the consumption traces. -/
def parse_spawned_with
    (pap' : ArgsGroup → List String → List Token → List String → Except PErr StepOut)
    (path : List String) :
    ArgsGroup → List String → List Token → List String → Except PErr StepOut
  | root, [], tokens, reg => .ok ⟨root, tokens, reg, []⟩
  | root, f :: fs, tokens, reg =>
    match pap' root (path ++ [f]) tokens reg with
    | .error e => .error e
    | .ok out =>
      match parse_spawned_with pap' path out.root fs out.rem out.reg with
      | .error e => .error e
      | .ok out2 => .ok { out2 with trace := out.trace ++ out2.trace }

/-- `parse_and_process_argsgroup` of ArgParser.py, for the group at `path`:
register the group's current option declarations (with the root parser for
help, and with the tokenizer against the current leftover stream), consume the
group, then immediately and recursively process each spawned child before
returning.  `fuel` bounds the spawn recursion depth (the Python code recurses
without a bound). -/
def parse_and_process_argsgroup :
    Nat → ArgsGroup → List String → List Token → List String → Except PErr StepOut
  | 0, _, _, _, _ => .error .fuelExhausted
  | fuel + 1, root, path, tokens, reg =>
    match getAt root path with
    | none => .error (.internalError "missing group at path")
    | some g =>
      let args := g.get_children_args_fields_to_value
      let reg2 := reg ++ args.map (fun p => (p.2).name)
      let pk := parse_known_args (args.map (fun p => p.2)) tokens
      match process_and_consume_args_with_namespace root path pk.1 with
      | .error e => .error e
      | .ok (root2, spawned) =>
        match parse_spawned_with (parse_and_process_argsgroup fuel) path
            root2 spawned pk.2 reg2 with
        | .error e => .error e
        | .ok out => .ok { out with trace := path :: out.trace }

/-- The outer loop of `ArgParser.parse_args_recursively` over the fixed
breadth-first list, returning the per-group consumption traces (one segment
per listed group). -/
def parse_snapshot_list (fuel : Nat) :
    ArgsGroup → List (List String) → List Token → List String →
      Except PErr (ArgsGroup × List Token × List String × List (List (List String)))
  | root, [], tokens, reg => .ok (root, tokens, reg, [])
  | root, p :: rest, tokens, reg =>
    match parse_and_process_argsgroup fuel root p tokens reg with
    | .error e => .error e
    | .ok out =>
      match parse_snapshot_list fuel out.root rest out.rem out.reg with
      | .error e => .error e
      | .ok (r2, rem2, reg2, segs) => .ok (r2, rem2, reg2, out.trace :: segs)

/-- The observable outcome of a full traversal (`parse_args_recursively` up to
the final leftover-token check): the final tree, the tree right after the
root consume (`postRoot`), the children spawned by the root consume step
(computed and then discarded by the code), the breadth-first snapshot
computed once from `postRoot`, the per-snapshot-group consumption segments,
and the final leftover tokens and registered option names. -/
structure RunOut where
  final : ArgsGroup
  postRoot : ArgsGroup
  rootSpawned : List String
  snapshot : List (List String)
  segs : List (List (List String))
  rem : List Token
  reg : List String

/-- Steps 1-4 of `ArgParser.parse_args_recursively`: register and consume the
root (its spawned children are not processed inline), capture the
breadth-first list of the tree at that point (never refreshed), then run
`parse_and_process_argsgroup` over that fixed list. -/
def run_traversal (fuel : Nat) (root : ArgsGroup) (tokens : List Token) :
    Except PErr RunOut :=
  let args := root.get_children_args_fields_to_value
  let reg := args.map (fun p => (p.2).name)
  let pk := parse_known_args (args.map (fun p => p.2)) tokens
  match process_and_consume_args_with_namespace root [] pk.1 with
  | .error e => .error e
  | .ok (root1, rootSpawned) =>
    match root1.bfsPaths fuel with
    | .error e => .error e
    | .ok snapshot =>
      match parse_snapshot_list fuel root1 snapshot pk.2 reg with
      | .error e => .error e
      | .ok (root2, rem2, reg2, segs) =>
        .ok { final := root2, postRoot := root1, rootSpawned := rootSpawned,
              snapshot := snapshot, segs := segs, rem := rem2, reg := reg2 }

/-- Result of a full `parse_args_recursively` run.  `unrecognizedTokens` is
the distinct `argparse.ArgumentError` raised at step 5 ("Too many args"),
carrying the leftover tokens and the registered options of the parser's help
rendering; `err` wraps every other (assertion/ValueError) failure raised
during the traversal itself. -/
inductive RunResult where
  | done (out : RunOut)
  | unrecognizedTokens (rem : List Token) (reg : List String)
  | err (e : PErr)

/-- `ArgParser.parse_args_recursively`: the traversal followed by the final
check `if len(rem_args) > 0: raise`. -/
def parse_args_recursively (fuel : Nat) (root : ArgsGroup) (tokens : List Token) :
    RunResult :=
  match run_traversal fuel root tokens with
  | .error e => .err e
  | .ok out =>
    if out.rem.length > 0 then .unrecognizedTokens out.rem out.reg
    else .done out

/-! ### Slot-level facts about attribute mutation -/

/-- Whether a field currently holds a nested group. -/
def slotIsGroup (g : ArgsGroup) (field : String) : Bool :=
  match slotLookup g field with
  | some (.groupSlot _) => true
  | _ => false

/-- Whether a field currently holds a non-group slot (an unresolved `Arg` or a
plain value). -/
def slotIsNonGroup (g : ArgsGroup) (field : String) : Bool :=
  match slotLookup g field with
  | some (.groupSlot _) => false
  | some _ => true
  | none => false

theorem find?_replace (fld f : String) (s : Slot) :
    ∀ slots : List (String × Slot),
      ((slots.map (fun p => if p.1 = fld then (p.1, s) else p)).find?
          (fun p => decide (p.1 = f))) =
        if f = fld then
          (slots.find? (fun p => decide (p.1 = f))).map (fun p => (p.1, s))
        else slots.find? (fun p => decide (p.1 = f)) := by
  intro slots
  induction slots with
  | nil => by_cases h : f = fld <;> simp [h]
  | cons p rest ih =>
    by_cases hp : p.1 = fld
    · by_cases hf : f = fld
      · subst hf
        rw [List.map_cons, if_pos hp, List.find?_cons_of_pos, List.find?_cons_of_pos]
        · simp [hp]
        · simp [hp]
        · simp [hp]
      · rw [List.map_cons, if_pos hp, List.find?_cons_of_neg, List.find?_cons_of_neg]
        · rw [ih, if_neg hf]
        · simp
          intro hc
          exact hf (hc ▸ hp)
        · simp
          intro hc
          exact hf (hc ▸ hp)
    · by_cases hpf : p.1 = f
      · have hffld : ¬ f = fld := fun hc => hp (hpf.trans hc)
        rw [List.map_cons, if_neg hp, List.find?_cons_of_pos, if_neg hffld,
          List.find?_cons_of_pos]
        · simp [hpf]
        · simp [hpf]
      · rw [List.map_cons, if_neg hp, List.find?_cons_of_neg, List.find?_cons_of_neg]
        · rw [ih]
        · simp [hpf]
        · simp [hpf]

theorem pySetAttr_slotLookup (g : ArgsGroup) (fld : String) (s : Slot) (f : String) :
    slotLookup (pySetAttr g fld s) f = if f = fld then some s else slotLookup g f := by
  cases g with
  | mk n d fn c slots =>
    simp only [pySetAttr, slotLookup, ArgsGroup.slots]
    by_cases hany : slots.any (fun p => decide (p.1 = fld)) = true
    · rw [if_pos hany, find?_replace]
      by_cases hf : f = fld
      · rw [if_pos hf, if_pos hf]
        have hsome : (slots.find? (fun p => decide (p.1 = f))).isSome = true := by
          rw [List.find?_isSome]
          rw [List.any_eq_true] at hany
          obtain ⟨x, hx, he⟩ := hany
          exact ⟨x, hx, by rw [hf]; exact he⟩
        cases hfind : slots.find? (fun p => decide (p.1 = f)) with
        | none => rw [hfind] at hsome; simp at hsome
        | some q => simp
      · rw [if_neg hf, if_neg hf]
    · rw [if_neg hany, List.find?_append]
      by_cases hf : f = fld
      · subst hf
        have hnone : slots.find? (fun p => decide (p.1 = f)) = none := by
          rw [List.find?_eq_none]
          intro x hx
          simp only [decide_eq_true_eq]
          intro hc
          rw [Bool.not_eq_true, List.any_eq_false] at hany
          have := hany x hx
          simp only [decide_eq_true_eq] at this
          exact this hc
        rw [hnone, if_pos rfl]
        simp [List.find?]
      · rw [if_neg hf]
        have h2 : ([((fld : String), s)].find? (fun p => decide (p.1 = f))) = none := by
          rw [List.find?_eq_none]
          intro x hx
          rw [List.mem_singleton] at hx
          subst hx
          simp only [decide_eq_true_eq]
          exact fun hc => hf hc.symm
        rw [h2]
        cases slots.find? (fun p => decide (p.1 = f)) <;> simp

theorem slotLookup_mem {g : ArgsGroup} {f : String} {s : Slot}
    (h : slotLookup g f = some s) : (f, s) ∈ g.slots := by
  unfold slotLookup at h
  cases hfind : g.slots.find? (fun p => decide (p.1 = f)) with
  | none => rw [hfind] at h; simp at h
  | some p =>
    rw [hfind] at h
    have h2 : p.2 = s := by simpa using h
    have hp := List.find?_some hfind
    simp only [decide_eq_true_eq] at hp
    have hmem := List.mem_of_find?_eq_some hfind
    have : p = (f, s) := by
      cases p with
      | mk a b => simp only at hp h2; rw [hp, h2]
    rw [← this]
    exact hmem

theorem mem_slotLookup_of_nodup {f : String} {s : Slot} :
    ∀ {slots : List (String × Slot)}, (f, s) ∈ slots → (slots.map Prod.fst).Nodup →
      (slots.find? (fun p => decide (p.1 = f))) = some (f, s) := by
  intro slots
  induction slots with
  | nil => intro h; simp at h
  | cons p rest ih =>
    intro hmem hnd
    rw [List.map_cons, List.nodup_cons] at hnd
    rcases List.mem_cons.mp hmem with rfl | hrest
    · rw [List.find?_cons_of_pos]
      simp
    · by_cases hp : p.1 = f
      · exfalso
        apply hnd.1
        rw [hp]
        exact List.mem_map.mpr ⟨(f, s), hrest, rfl⟩
      · rw [List.find?_cons_of_neg]
        · exact ih hrest hnd.2
        · simp [hp]

theorem slotLookup_of_mem_nodup {g : ArgsGroup} {f : String} {s : Slot}
    (hmem : (f, s) ∈ g.slots) (hnd : (g.slots.map Prod.fst).Nodup) :
    slotLookup g f = some s := by
  unfold slotLookup
  rw [mem_slotLookup_of_nodup hmem hnd]
  rfl

theorem slotIsNonGroup_mem_fields {g : ArgsGroup} {f : String}
    (h : slotIsNonGroup g f = true) :
    f ∈ (g.get_children_fields_to_values).map Prod.fst := by
  unfold slotIsNonGroup at h
  cases hl : slotLookup g f with
  | none => rw [hl] at h; simp at h
  | some s =>
    rw [hl] at h
    have hmem := slotLookup_mem hl
    cases s with
    | groupSlot c => simp at h
    | argSlot a =>
      refine List.mem_map.mpr ⟨(f, .argSlot a), ?_, rfl⟩
      exact List.mem_filter.mpr ⟨hmem, rfl⟩
    | configSlot v =>
      refine List.mem_map.mpr ⟨(f, .configSlot v), ?_, rfl⟩
      exact List.mem_filter.mpr ⟨hmem, rfl⟩

theorem slotIsGroup_mem_childrenWithFields {g : ArgsGroup} {f : String}
    (h : slotIsGroup g f = true) : ∃ c, (f, c) ∈ g.childrenWithFields := by
  unfold slotIsGroup at h
  cases hl : slotLookup g f with
  | none => rw [hl] at h; simp at h
  | some s =>
    rw [hl] at h
    cases s with
    | argSlot a => simp at h
    | configSlot v => simp at h
    | groupSlot c =>
      refine ⟨c, ?_⟩
      unfold ArgsGroup.childrenWithFields
      exact List.mem_filterMap.mpr ⟨(f, .groupSlot c), slotLookup_mem hl, rfl⟩

theorem pySetAttr_names_nodup {g : ArgsGroup} {fld : String} {s : Slot}
    (h : (g.slots.map Prod.fst).Nodup) :
    (((pySetAttr g fld s).slots).map Prod.fst).Nodup := by
  cases g with
  | mk n d fn c slots =>
    simp only [pySetAttr, ArgsGroup.slots] at *
    by_cases hany : slots.any (fun p => decide (p.1 = fld)) = true
    · rw [if_pos hany]
      have : (slots.map (fun p => if p.1 = fld then (p.1, s) else p)).map Prod.fst =
          slots.map Prod.fst := by
        rw [List.map_map]
        apply List.map_congr_left
        intro p _
        by_cases hp : p.1 = fld <;> simp [hp]
      rw [this]
      exact h
    · rw [if_neg hany, List.map_append]
      rw [List.nodup_append]
      refine ⟨h, by simp, ?_⟩
      intro a ha
      simp only [List.map_cons, List.map_nil, List.mem_singleton]
      intro hc
      subst hc
      rw [Bool.not_eq_true, List.any_eq_false] at hany
      rw [List.mem_map] at ha
      obtain ⟨p, hp, hpa⟩ := ha
      have := hany p hp
      simp only [decide_eq_true_eq] at this
      exact this hpa

theorem mark_slots (g : ArgsGroup) :
    (ArgsGroup.mark_self_as_parsed g).slots = g.slots := by
  cases g; rfl

theorem not_slotIsGroup_and_nonGroup {g : ArgsGroup} {f : String}
    (h1 : slotIsGroup g f = true) (h2 : slotIsNonGroup g f = true) : False := by
  unfold slotIsGroup at h1
  unfold slotIsNonGroup at h2
  cases hl : slotLookup g f with
  | none => rw [hl] at h1; simp at h1
  | some s =>
    rw [hl] at h1 h2
    cases s <;> simp_all

theorem spawn_args_children_nil_invariant
    (root : ArgsGroup) (arg : ArgD) (nv : Value) (spawned0 : List String)
    (rootS : ArgsGroup) (spawnedS : List String)
    (h : spawn_args_children root [] arg nv spawned0 = .ok (rootS, spawnedS))
    (hsp : ∀ f2 ∈ spawned0, slotIsGroup root f2 = true)
    (hnd : (root.slots.map Prod.fst).Nodup) :
    (∀ fld, slotIsNonGroup root fld = true → slotIsNonGroup rootS fld = true) ∧
    (∀ f2 ∈ spawnedS, slotIsGroup rootS f2 = true) ∧
    ((rootS.slots.map Prod.fst).Nodup) := by
  unfold spawn_args_children at h
  cases hc : arg.spawn_children_args nv with
  | none =>
    simp only [hc] at h
    injection h with h2
    injection h2 with h3 h4
    subst h3; subst h4
    exact ⟨fun fld hf => hf, hsp, hnd⟩
  | some child =>
    simp only [hc] at h
    cases hfn : child.field_name with
    | none =>
      simp only [hfn] at h
      exact Except.noConfusion h
    | some fname =>
      simp only [hfn, getAt] at h
      by_cases hany :
          ((root.get_children_fields_to_values).any (fun p => decide (p.1 = fname))) = true
      · rw [if_pos hany] at h
        exact absurd h (by simp)
      · rw [if_neg hany] at h
        injection h with h2
        injection h2 with h3 h4
        have hset : rootS = pySetAttr root fname (.groupSlot child) := h3.symm
        subst hset
        subst h4
        have hfresh : ∀ fld, slotIsNonGroup root fld = true → fld ≠ fname := by
          intro fld hf hc2
          subst hc2
          apply hany
          rw [List.any_eq_true]
          have := slotIsNonGroup_mem_fields hf
          rw [List.mem_map] at this
          obtain ⟨p, hp, hpf⟩ := this
          exact ⟨p, hp, by simp [hpf]⟩
        refine ⟨?_, ?_, pySetAttr_names_nodup hnd⟩
        · intro fld hf
          unfold slotIsNonGroup
          rw [pySetAttr_slotLookup, if_neg (hfresh fld hf)]
          unfold slotIsNonGroup at hf
          exact hf
        · intro f2 hf2
          rcases List.mem_append.mp hf2 with hold | hnew
          · by_cases heq : f2 = fname
            · unfold slotIsGroup
              rw [pySetAttr_slotLookup, if_pos heq]
            · unfold slotIsGroup
              rw [pySetAttr_slotLookup, if_neg heq]
              have := hsp f2 hold
              unfold slotIsGroup at this
              exact this
          · rw [List.mem_singleton] at hnew
            subst hnew
            unfold slotIsGroup
            rw [pySetAttr_slotLookup, if_pos rfl]

theorem consumeNamespaceField_nil_invariant
    (root : ArgsGroup) (dict : List (String × ArgD)) (spawned0 : List String)
    (field : String) (value : Value) (root2 : ArgsGroup) (spawned2 : List String)
    (h : consumeNamespaceField root [] dict spawned0 field value = .ok (root2, spawned2))
    (hdict : ∀ p ∈ dict, slotIsNonGroup root p.1 = true)
    (hsp : ∀ f2 ∈ spawned0, slotIsGroup root f2 = true)
    (hnd : (root.slots.map Prod.fst).Nodup) :
    (∀ p ∈ dict, slotIsNonGroup root2 p.1 = true) ∧
    (∀ f2 ∈ spawned2, slotIsGroup root2 f2 = true) ∧
    ((root2.slots.map Prod.fst).Nodup) := by
  unfold consumeNamespaceField at h
  cases hfind : (dict.find? (fun p => decide (p.1 = field))).map (fun p => p.2) with
  | none =>
    simp only [hfind] at h
    exact Except.noConfusion h
  | some arg =>
    simp only [hfind] at h
    have hfieldmem : slotIsNonGroup root field = true := by
      cases hf2 : dict.find? (fun p => decide (p.1 = field)) with
      | none => rw [hf2] at hfind; simp at hfind
      | some pf =>
        have hpf := List.find?_some hf2
        simp only [decide_eq_true_eq] at hpf
        have hm := List.mem_of_find?_eq_some hf2
        have := hdict pf hm
        rw [hpf] at this
        exact this
    cases hv : (if value = Value.vDyn then get_dynamic_default_for_arg root arg
        else Except.ok value) with
    | error e =>
      simp only [hv] at h
      exact Except.noConfusion h
    | ok value2 =>
      simp only [hv] at h
      cases hsan : arg.sanitize_value_for_consumption value2 with
      | error e =>
        simp only [hsan] at h
        exact Except.noConfusion h
      | ok nv =>
        simp only [hsan] at h
        cases hspawn : spawn_args_children root [] arg nv spawned0 with
        | error e =>
          simp only [hspawn] at h
          exact Except.noConfusion h
        | ok rs =>
          obtain ⟨rootS, spawnedS⟩ := rs
          simp only [hspawn] at h
          injection h with h2
          injection h2 with h3 h4
          obtain ⟨hNG, hG, hND⟩ :=
            spawn_args_children_nil_invariant root arg nv spawned0 rootS spawnedS hspawn hsp hnd
          have hset : root2 = pySetAttr rootS field (.configSlot nv) := h3.symm
          subst hset
          subst h4
          refine ⟨?_, ?_, pySetAttr_names_nodup hND⟩
          · intro p hp
            unfold slotIsNonGroup
            rw [pySetAttr_slotLookup]
            by_cases hpe : p.1 = field
            · rw [if_pos hpe]
            · rw [if_neg hpe]
              have := hNG p.1 (hdict p hp)
              unfold slotIsNonGroup at this
              exact this
          · intro f2 hf2
            have hgS : slotIsGroup rootS f2 = true := hG f2 hf2
            have hne : f2 ≠ field := by
              intro hc2
              subst hc2
              exact not_slotIsGroup_and_nonGroup hgS (hNG f2 hfieldmem)
            unfold slotIsGroup
            rw [pySetAttr_slotLookup, if_neg hne]
            unfold slotIsGroup at hgS
            exact hgS

theorem consumeFields_nil_invariant :
    ∀ (ns : List (String × Value)) (root : ArgsGroup) (dict : List (String × ArgD))
      (spawned0 : List String) (root2 : ArgsGroup) (spawned2 : List String),
      consumeFields root [] dict spawned0 ns = .ok (root2, spawned2) →
      (∀ p ∈ dict, slotIsNonGroup root p.1 = true) →
      (∀ f2 ∈ spawned0, slotIsGroup root f2 = true) →
      ((root.slots.map Prod.fst).Nodup) →
      ((∀ f2 ∈ spawned2, slotIsGroup root2 f2 = true) ∧
       ((root2.slots.map Prod.fst).Nodup)) := by
  intro ns
  induction ns with
  | nil =>
    intro root dict spawned0 root2 spawned2 h hdict hsp hnd
    unfold consumeFields at h
    injection h with h2
    injection h2 with h3 h4
    subst h3; subst h4
    exact ⟨hsp, hnd⟩
  | cons fv rest ih =>
    intro root dict spawned0 root2 spawned2 h hdict hsp hnd
    obtain ⟨field, value⟩ := fv
    unfold consumeFields at h
    cases hstep : consumeNamespaceField root [] dict spawned0 field value with
    | error e =>
      simp only [hstep] at h
      exact Except.noConfusion h
    | ok rs =>
      obtain ⟨rootm, spawnedm⟩ := rs
      simp only [hstep] at h
      obtain ⟨hdict2, hsp2, hnd2⟩ :=
        consumeNamespaceField_nil_invariant root dict spawned0 field value rootm spawnedm
          hstep hdict hsp hnd
      exact ih rootm dict spawnedm root2 spawned2 h hdict2 hsp2 hnd2

theorem process_and_consume_nil_invariant
    (root : ArgsGroup) (ns : List (String × Value)) (root1 : ArgsGroup)
    (spawned : List String)
    (h : process_and_consume_args_with_namespace root [] ns = .ok (root1, spawned))
    (hnd : (root.slots.map Prod.fst).Nodup) :
    (∀ f ∈ spawned, slotIsGroup root1 f = true) ∧
    ((root1.slots.map Prod.fst).Nodup) := by
  unfold process_and_consume_args_with_namespace at h
  simp only [getAt] at h
  by_cases hcons : root.args_are_consumed = true
  · rw [if_pos hcons] at h; exact absurd h (by simp)
  · rw [if_neg hcons] at h
    cases hcf : consumeFields root [] (root.get_children_args_fields_to_value) [] ns with
    | error e =>
      simp only [hcf] at h
      exact Except.noConfusion h
    | ok rs =>
      obtain ⟨root2m, spawnedm⟩ := rs
      simp only [hcf] at h
      injection h with h2
      injection h2 with h3 h4
      have hdict : ∀ p ∈ root.get_children_args_fields_to_value,
          slotIsNonGroup root p.1 = true := by
        intro p hp
        unfold ArgsGroup.get_children_args_fields_to_value at hp
        rw [List.mem_filterMap] at hp
        obtain ⟨q, hq, hmatch⟩ := hp
        obtain ⟨qn, qs⟩ := q
        cases qs with
        | argSlot a =>
          simp only at hmatch
          injection hmatch with hm
          unfold slotIsNonGroup
          rw [show p.1 = qn by rw [← hm]]
          rw [slotLookup_of_mem_nodup hq hnd]
        | groupSlot gg => simp at hmatch
        | configSlot v => simp at hmatch
      obtain ⟨hG, hND⟩ := consumeFields_nil_invariant ns root
        (root.get_children_args_fields_to_value) [] root2m spawnedm hcf hdict
        (by intro f2 hf2; simp at hf2) hnd
      have hr1 : root1 = ArgsGroup.mark_self_as_parsed root2m := by
        rw [← h3]
        rfl
      subst hr1
      subst h4
      constructor
      · intro f hf
        unfold slotIsGroup slotLookup
        rw [mark_slots]
        have := hG f hf
        unfold slotIsGroup slotLookup at this
        exact this
      · rw [mark_slots]
        exact hND

/-! ### Facts about the breadth-first path listing -/

theorem bfsPathsAux_mem :
    ∀ (fuel : Nat) (q : List (List String × ArgsGroup)) (out : List (List String)),
      bfsPathsAux fuel q = .ok out → ∀ pg ∈ q, pg.1 ∈ out := by
  intro fuel
  induction fuel with
  | zero =>
    intro q out h pg hpg
    cases q with
    | nil => simp at hpg
    | cons x rest => exact Except.noConfusion h
  | succ fuel ih =>
    intro q out h pg hpg
    cases q with
    | nil => simp at hpg
    | cons x rest =>
      obtain ⟨p, g⟩ := x
      unfold bfsPathsAux at h
      cases hrec : bfsPathsAux fuel
          (rest ++ (g.childrenWithFields).map (fun q2 => (p ++ [q2.1], q2.2))) with
      | error e => rw [hrec] at h; exact Except.noConfusion h
      | ok ps =>
        rw [hrec] at h
        injection h with h2
        subst h2
        rcases List.mem_cons.mp hpg with rfl | hrest
        · exact List.mem_cons_self _ _
        · exact List.mem_cons_of_mem _
            (ih _ ps hrec pg (List.mem_append.mpr (Or.inl hrest)))

theorem bfsPathsAux_ne_nil :
    ∀ (fuel : Nat) (q : List (List String × ArgsGroup)) (out : List (List String)),
      bfsPathsAux fuel q = .ok out → (∀ pg ∈ q, pg.1 ≠ ([] : List String)) →
      ∀ p ∈ out, p ≠ [] := by
  intro fuel
  induction fuel with
  | zero =>
    intro q out h hq p hp
    cases q with
    | nil =>
      injection h with h2
      subst h2
      simp at hp
    | cons x rest => exact Except.noConfusion h
  | succ fuel ih =>
    intro q out h hq p hp
    cases q with
    | nil =>
      injection h with h2
      subst h2
      simp at hp
    | cons x rest =>
      obtain ⟨p0, g⟩ := x
      unfold bfsPathsAux at h
      cases hrec : bfsPathsAux fuel
          (rest ++ (g.childrenWithFields).map (fun q2 => (p0 ++ [q2.1], q2.2))) with
      | error e => rw [hrec] at h; exact Except.noConfusion h
      | ok ps =>
        rw [hrec] at h
        injection h with h2
        subst h2
        rcases List.mem_cons.mp hp with rfl | hps
        · exact hq (p, g) (List.mem_cons_self _ _)
        · refine ih _ ps hrec ?_ p hps
          intro pg hpg
          rcases List.mem_append.mp hpg with h1 | h1
          · exact hq pg (List.mem_cons_of_mem _ h1)
          · rw [List.mem_map] at h1
            obtain ⟨q2, _, hq2⟩ := h1
            rw [← hq2]
            simp

theorem bfsPathsAux_count_singleton (f : String) :
    ∀ (fuel : Nat) (q : List (List String × ArgsGroup)) (out : List (List String)),
      bfsPathsAux fuel q = .ok out → (∀ pg ∈ q, 1 ≤ pg.1.length) →
      List.count [f] out = List.count [f] (q.map Prod.fst) := by
  intro fuel
  induction fuel with
  | zero =>
    intro q out h hq
    cases q with
    | nil =>
      injection h with h2
      subst h2
      simp
    | cons x rest => exact Except.noConfusion h
  | succ fuel ih =>
    intro q out h hq
    cases q with
    | nil =>
      injection h with h2
      subst h2
      simp
    | cons x rest =>
      obtain ⟨p0, g⟩ := x
      unfold bfsPathsAux at h
      cases hrec : bfsPathsAux fuel
          (rest ++ (g.childrenWithFields).map (fun q2 => (p0 ++ [q2.1], q2.2))) with
      | error e => rw [hrec] at h; exact Except.noConfusion h
      | ok ps =>
        rw [hrec] at h
        injection h with h2
        subst h2
        have hih := ih _ ps hrec ?_
        · rw [List.count_cons, hih, List.map_append, List.count_append, List.map_cons,
            List.count_cons]
          have hzero : List.count ([f] : List String)
              (((g.childrenWithFields).map (fun q2 => (p0 ++ [q2.1], q2.2))).map Prod.fst) =
              0 := by
            rw [List.count_eq_zero]
            intro hc
            rw [List.map_map, List.mem_map] at hc
            obtain ⟨q2, _, hq2⟩ := hc
            have hlen := congrArg List.length hq2
            simp only [Function.comp, List.length_append, List.length_cons,
              List.length_singleton] at hlen
            have := hq (p0, g) (List.mem_cons_self _ _)
            simp only at this
            omega
          rw [hzero]
          simp
        · intro pg hpg
          rcases List.mem_append.mp hpg with h1 | h1
          · exact hq pg (List.mem_cons_of_mem _ h1)
          · rw [List.mem_map] at h1
            obtain ⟨q2, _, hq2⟩ := h1
            rw [← hq2]
            simp

theorem count_map_singletonPath (f : String) :
    ∀ l : List (String × ArgsGroup),
      List.count [f] (l.map (fun q => ([q.1] : List String))) =
        List.count f (l.map Prod.fst) := by
  intro l
  induction l with
  | nil => simp
  | cons x rest ih =>
    rw [List.map_cons, List.map_cons, List.count_cons, List.count_cons, ih]
    by_cases hx : x.1 = f
    · simp [hx]
    · have h1 : ¬ ([x.1] = ([f] : List String)) := by simp [hx]
      simp [hx, h1]

theorem childrenWithFields_fst_sublist (g : ArgsGroup) :
    ((g.childrenWithFields).map Prod.fst).Sublist (g.slots.map Prod.fst) := by
  cases g with
  | mk n d fn c slots =>
    simp only [ArgsGroup.childrenWithFields, ArgsGroup.slots]
    induction slots with
    | nil => simp
    | cons p rest ih =>
      obtain ⟨nm, sl⟩ := p
      cases sl with
      | groupSlot h2 =>
        simp only [List.filterMap_cons, List.map_cons]
        exact List.Sublist.cons₂ _ ih
      | argSlot a =>
        simp only [List.filterMap_cons, List.map_cons]
        exact List.Sublist.cons _ ih
      | configSlot v =>
        simp only [List.filterMap_cons, List.map_cons]
        exact List.Sublist.cons _ ih

theorem segs_join_count (f : String) :
    ∀ (snap : List (List String)) (segs : List (List (List String)))
      (hall : List.Forall₂ (fun p seg => ∃ rest, seg = p :: rest ∧
        ∀ q ∈ rest, ∃ f2 r2, q = p ++ f2 :: r2) snap segs)
      (hne : ∀ p ∈ snap, p ≠ []),
      List.count [f] segs.flatten = List.count [f] snap := by
  intro snap segs hall
  induction hall with
  | nil => intro hne; simp
  | @cons p seg snapR segsR hps hrest ih =>
    intro hne
    obtain ⟨rest, hseg, hextend⟩ := hps
    rw [List.flatten_cons, List.count_append, hseg, List.count_cons, List.count_cons]
    have hzero : List.count ([f] : List String) rest = 0 := by
      rw [List.count_eq_zero]
      intro hc
      obtain ⟨f2, r2, hq⟩ := hextend [f] hc
      have hlen := congrArg List.length hq
      simp at hlen
      have hp : p ≠ [] := hne p (List.mem_cons_self _ _)
      have : 1 ≤ p.length := by
        cases hpp : p with
        | nil => exact absurd hpp hp
        | cons a b => simp
      omega
    rw [hzero]
    have := ih (fun p2 hp2 => hne p2 (List.mem_cons_of_mem _ hp2))
    omega

/-! ### Shape of the consumption trace -/

theorem parse_spawned_with_trace
    (pap2 : ArgsGroup → List String → List Token → List String → Except PErr StepOut)
    (path : List String)
    (hp : ∀ root p2 tokens reg out, pap2 root p2 tokens reg = .ok out →
      ∃ rest, out.trace = p2 :: rest ∧ ∀ q ∈ rest, ∃ f r, q = p2 ++ f :: r) :
    ∀ (fields : List String) (root : ArgsGroup) (tokens : List Token)
      (reg : List String) (out : StepOut),
      parse_spawned_with pap2 path root fields tokens reg = .ok out →
      ∀ q ∈ out.trace, ∃ f r, q = path ++ f :: r := by
  intro fields
  induction fields with
  | nil =>
    intro root tokens reg out h q hq
    unfold parse_spawned_with at h
    injection h with h2
    subst h2
    simp at hq
  | cons f fs ih =>
    intro root tokens reg out h q hq
    unfold parse_spawned_with at h
    cases h1 : pap2 root (path ++ [f]) tokens reg with
    | error e =>
      simp only [h1] at h
      exact Except.noConfusion h
    | ok out1 =>
      simp only [h1] at h
      cases h2 : parse_spawned_with pap2 path out1.root fs out1.rem out1.reg with
      | error e =>
        simp only [h2] at h
        exact Except.noConfusion h
      | ok out2 =>
        simp only [h2] at h
        injection h with h3
        subst h3
        simp only [] at hq
        rcases List.mem_append.mp hq with hq1 | hq2
        · obtain ⟨rest, htr, hrest⟩ := hp _ _ _ _ _ h1
          rw [htr] at hq1
          rcases List.mem_cons.mp hq1 with rfl | hq1r
          · exact ⟨f, [], rfl⟩
          · obtain ⟨f2, r2, hq2e⟩ := hrest q hq1r
            refine ⟨f, f2 :: r2, ?_⟩
            rw [hq2e]
            simp
        · exact ih _ _ _ _ h2 q hq2

theorem parse_and_process_argsgroup_trace :
    ∀ (fuel : Nat) (root : ArgsGroup) (path : List String) (tokens : List Token)
      (reg : List String) (out : StepOut),
      parse_and_process_argsgroup fuel root path tokens reg = .ok out →
      ∃ rest, out.trace = path :: rest ∧ ∀ q ∈ rest, ∃ f r, q = path ++ f :: r := by
  intro fuel
  induction fuel with
  | zero =>
    intro root path tokens reg out h
    exact Except.noConfusion h
  | succ fuel ih =>
    intro root path tokens reg out h
    unfold parse_and_process_argsgroup at h
    cases hg : getAt root path with
    | none =>
      simp only [hg] at h
      exact Except.noConfusion h
    | some g =>
      simp only [hg] at h
      cases hc : process_and_consume_args_with_namespace root path
          (parse_known_args ((g.get_children_args_fields_to_value).map (fun p => p.2))
            tokens).1 with
      | error e =>
        simp only [hc] at h
        exact Except.noConfusion h
      | ok rs =>
        obtain ⟨root2, spawned⟩ := rs
        simp only [hc] at h
        cases hs : parse_spawned_with (parse_and_process_argsgroup fuel) path root2 spawned
            (parse_known_args ((g.get_children_args_fields_to_value).map (fun p => p.2))
              tokens).2
            (reg ++ (g.get_children_args_fields_to_value).map (fun p => (p.2).name)) with
        | error e =>
          simp only [hs] at h
          exact Except.noConfusion h
        | ok out1 =>
          simp only [hs] at h
          injection h with h2
          subst h2
          refine ⟨out1.trace, rfl, ?_⟩
          exact parse_spawned_with_trace (parse_and_process_argsgroup fuel) path
            (fun r2 p2 t2 g2 o2 ho2 => ih r2 p2 t2 g2 o2 ho2) spawned root2 _ _ out1 hs

theorem parse_snapshot_list_forall2 (fuel : Nat) :
    ∀ (paths : List (List String)) (root : ArgsGroup) (tokens : List Token)
      (reg : List String) (r : ArgsGroup) (rem2 : List Token) (reg2 : List String)
      (segs : List (List (List String))),
      parse_snapshot_list fuel root paths tokens reg = .ok (r, rem2, reg2, segs) →
      List.Forall₂ (fun p seg => ∃ rest, seg = p :: rest ∧
        ∀ q ∈ rest, ∃ f r2, q = p ++ f :: r2) paths segs := by
  intro paths
  induction paths with
  | nil =>
    intro root tokens reg r rem2 reg2 segs h
    unfold parse_snapshot_list at h
    simp only [Except.ok.injEq, Prod.mk.injEq] at h
    obtain ⟨-, -, -, h4⟩ := h
    subst h4
    exact List.Forall₂.nil
  | cons p rest ih =>
    intro root tokens reg r rem2 reg2 segs h
    unfold parse_snapshot_list at h
    cases hp : parse_and_process_argsgroup fuel root p tokens reg with
    | error e =>
      simp only [hp] at h
      exact Except.noConfusion h
    | ok out =>
      simp only [hp] at h
      cases hrec : parse_snapshot_list fuel out.root rest out.rem out.reg with
      | error e =>
        simp only [hrec] at h
        exact Except.noConfusion h
      | ok rs =>
        obtain ⟨r2, rem3, reg3, segs2⟩ := rs
        simp only [hrec, Except.ok.injEq, Prod.mk.injEq] at h
        obtain ⟨-, -, -, h4⟩ := h
        subst h4
        refine List.Forall₂.cons ?_ (ih _ _ _ _ _ _ _ hrec)
        obtain ⟨rest2, htr, hext⟩ := parse_and_process_argsgroup_trace fuel root p tokens reg out hp
        exact ⟨rest2, htr, hext⟩

theorem run_traversal_ok_parts (fuel : Nat) (root : ArgsGroup) (tokens : List Token)
    (out : RunOut) (h : run_traversal fuel root tokens = .ok out) :
    process_and_consume_args_with_namespace root []
        (parse_known_args ((root.get_children_args_fields_to_value).map (fun p => p.2))
          tokens).1
      = .ok (out.postRoot, out.rootSpawned) ∧
    out.postRoot.bfsPaths fuel = .ok out.snapshot ∧
    parse_snapshot_list fuel out.postRoot out.snapshot
        (parse_known_args ((root.get_children_args_fields_to_value).map (fun p => p.2))
          tokens).2
        ((root.get_children_args_fields_to_value).map (fun p => (p.2).name))
      = .ok (out.final, out.rem, out.reg, out.segs) := by
  unfold run_traversal at h
  simp only [] at h
  cases hc : process_and_consume_args_with_namespace root []
      (parse_known_args ((root.get_children_args_fields_to_value).map (fun p => p.2))
        tokens).1 with
  | error e =>
    simp only [hc] at h
    exact Except.noConfusion h
  | ok rs =>
    obtain ⟨root1, rootSpawned⟩ := rs
    simp only [hc] at h
    cases hb : root1.bfsPaths fuel with
    | error e =>
      simp only [hb] at h
      exact Except.noConfusion h
    | ok snapshot =>
      simp only [hb] at h
      cases hs : parse_snapshot_list fuel root1 snapshot
          (parse_known_args ((root.get_children_args_fields_to_value).map (fun p => p.2))
            tokens).2
          ((root.get_children_args_fields_to_value).map (fun p => (p.2).name)) with
      | error e =>
        simp only [hs] at h
        exact Except.noConfusion h
      | ok rs2 =>
        obtain ⟨root2, rem2, reg2, segs⟩ := rs2
        simp only [hs] at h
        injection h with h2
        subst h2
        exact ⟨rfl, hb, hs⟩

/-! ### Claim C1, C8 and C9 theorems -/

/-- C8: a full resolution run raises the distinct unrecognized-tokens error
(the `argparse.ArgumentError` of step 5, carrying the remaining tokens and the
registered options of the help rendering) exactly when the whole traversal —
the fixed breadth-first list and all inline-spawned subtrees — completes with
a non-empty leftover token stream.  In particular tokens matching no
registered option never abort the run before the traversal completes: any
earlier failure surfaces as a different error kind. -/
theorem c8_unrecognized_tokens_iff_leftover_after_traversal
    (fuel : Nat) (root : ArgsGroup) (tokens rem : List Token) (reg : List String) :
    parse_args_recursively fuel root tokens = .unrecognizedTokens rem reg ↔
      (∃ out : RunOut, run_traversal fuel root tokens = .ok out ∧
        out.rem = rem ∧ rem ≠ [] ∧ out.reg = reg) := by
  unfold parse_args_recursively
  cases h : run_traversal fuel root tokens with
  | error e =>
    constructor
    · intro hx
      exact RunResult.noConfusion hx
    · rintro ⟨out, hout, -⟩
      exact Except.noConfusion hout
  | ok out =>
    have hred : (match (Except.ok out : Except PErr RunOut) with
        | Except.error e => RunResult.err e
        | Except.ok out =>
          if out.rem.length > 0 then RunResult.unrecognizedTokens out.rem out.reg
          else RunResult.done out) =
        (if out.rem.length > 0 then RunResult.unrecognizedTokens out.rem out.reg
         else RunResult.done out) := rfl
    rw [hred]
    by_cases hr : out.rem.length > 0
    · rw [if_pos hr]
      constructor
      · intro hx
        injection hx with h1 h2
        refine ⟨out, rfl, h1, ?_, h2⟩
        rw [← h1]
        intro hc
        rw [hc] at hr
        simp at hr
      · rintro ⟨out2, hout2, h1, h2, h3⟩
        injection hout2 with he
        subst he
        rw [h1, h3]
    · rw [if_neg hr]
      constructor
      · intro hx
        exact RunResult.noConfusion hx
      · rintro ⟨out2, hout2, h1, h2, h3⟩
        injection hout2 with he
        subst he
        exfalso
        apply h2
        rw [← h1]
        exact List.eq_nil_of_length_eq_zero (by omega)

/-- C1: in every successful run, the root group is consumed first (step 2,
on the original token stream), the breadth-first list is computed once from
the tree as it stands right after the root consume (step 3, never refreshed),
and the consumption order after the root is exactly one contiguous segment
per group of that fixed list, in list order, where each segment starts with
the listed group itself and continues only with groups attached strictly
below it — the recursively spawned subtree resolved inline before the
orchestrator advances to the next group of the fixed list. -/
theorem c1_root_first_fixed_bfs_inline_spawn
    (fuel : Nat) (root : ArgsGroup) (tokens : List Token) (out : RunOut)
    (h : run_traversal fuel root tokens = .ok out) :
    process_and_consume_args_with_namespace root []
        (parse_known_args ((root.get_children_args_fields_to_value).map (fun p => p.2))
          tokens).1
      = .ok (out.postRoot, out.rootSpawned) ∧
    out.postRoot.bfsPaths fuel = .ok out.snapshot ∧
    List.Forall₂ (fun p seg => ∃ rest, seg = p :: rest ∧
      ∀ q ∈ rest, ∃ f r2, q = p ++ f :: r2) out.snapshot out.segs := by
  obtain ⟨h1, h2, h3⟩ := run_traversal_ok_parts fuel root tokens out h
  exact ⟨h1, h2, parse_snapshot_list_forall2 fuel _ _ _ _ _ _ _ _ h3⟩

/-- C9: every child spawned by the root group's own consume step (whose
resolution the code does not trigger inline — the returned spawn list is
discarded) is attached before the breadth-first snapshot is computed, hence
is a member of that fixed list, and is consumed exactly once by the outer
loop (its path occurs exactly once in the concatenation of all consumption
segments). -/
theorem c9_root_spawned_in_snapshot_consumed_once
    (fuel : Nat) (root : ArgsGroup) (tokens : List Token) (out : RunOut) (f : String)
    (h : run_traversal fuel root tokens = .ok out)
    (hf : f ∈ out.rootSpawned)
    (hnd : (root.slots.map Prod.fst).Nodup) :
    [f] ∈ out.snapshot ∧ List.count [f] out.segs.flatten = 1 := by
  obtain ⟨h1, h2, h3⟩ := run_traversal_ok_parts fuel root tokens out h
  obtain ⟨hG, hND1⟩ := process_and_consume_nil_invariant root _ out.postRoot
    out.rootSpawned h1 hnd
  have hgf : slotIsGroup out.postRoot f = true := hG f hf
  obtain ⟨c, hcmem⟩ := slotIsGroup_mem_childrenWithFields hgf
  have hb : bfsPathsAux fuel
      (((out.postRoot.childrenWithFields)).map (fun q => ([q.1], q.2))) = .ok out.snapshot := h2
  have hq0 : (([f] : List String), c) ∈
      ((out.postRoot.childrenWithFields)).map (fun q => (([q.1] : List String), q.2)) :=
    List.mem_map.mpr ⟨(f, c), hcmem, rfl⟩
  have hmem : [f] ∈ out.snapshot := bfsPathsAux_mem fuel _ out.snapshot hb ([f], c) hq0
  refine ⟨hmem, ?_⟩
  have hlen : ∀ pg ∈ ((out.postRoot.childrenWithFields)).map
      (fun q => (([q.1] : List String), q.2)), 1 ≤ pg.1.length := by
    intro pg hpg
    rw [List.mem_map] at hpg
    obtain ⟨q2, -, hq2⟩ := hpg
    rw [← hq2]
    simp
  have hcount1 : List.count [f] out.snapshot =
      List.count [f] ((((out.postRoot.childrenWithFields)).map
        (fun q => (([q.1] : List String), q.2))).map Prod.fst) :=
    bfsPathsAux_count_singleton f fuel _ out.snapshot hb hlen
  have hcount2 : ((((out.postRoot.childrenWithFields)).map
      (fun q => (([q.1] : List String), q.2))).map Prod.fst) =
      ((out.postRoot.childrenWithFields)).map (fun q => ([q.1] : List String)) := by
    rw [List.map_map]
    rfl
  have hcount3 : List.count f ((out.postRoot.childrenWithFields).map Prod.fst) = 1 := by
    apply List.count_eq_one_of_mem
    · exact List.Nodup.sublist (childrenWithFields_fst_sublist out.postRoot) hND1
    · exact List.mem_map.mpr ⟨(f, c), hcmem, rfl⟩
  have hne : ∀ p ∈ out.snapshot, p ≠ [] := by
    apply bfsPathsAux_ne_nil fuel _ out.snapshot hb
    intro pg hpg
    rw [List.mem_map] at hpg
    obtain ⟨q2, -, hq2⟩ := hpg
    rw [← hq2]
    simp
  have hjoin : List.count [f] out.segs.flatten = List.count [f] out.snapshot :=
    segs_join_count f out.snapshot out.segs
      (parse_snapshot_list_forall2 fuel _ _ _ _ _ _ _ _ h3) hne
  rw [hjoin, hcount1, hcount2, count_map_singletonPath, hcount3]

/-- An integer `seed` option with default 0. -/
def exSeedArg : ArgD := .mk "seed" (.vInt 0) none .int none [] none

/-- An integer `pct` option with default 3 (inside the spawnable group). -/
def exPctArg : ArgD := .mk "pct" (.vInt 3) none .int none [] none

/-- A spawnable scheduler group attached under `one_cycle`. -/
def exOneCycleGrp : ArgsGroup :=
  .mk "OneCycle" none (some "one_cycle") false [("pct", .argSlot exPctArg)]

/-- A root option whose default `"go"` spawns `exOneCycleGrp`. -/
def exRootSchedArg : ArgD :=
  .mk "sched" (.vStr "go") none .str none [(.vStr "go", exOneCycleGrp)] none

/-- A `dataset` option inside the static child group. -/
def exDatasetCfgArg : ArgD := .mk "dataset" (.vStr "sst2") none .str none [] none

/-- A static child group attached under `dataset_config`. -/
def exDatasetGrp : ArgsGroup :=
  .mk "DatasetConfig" none (some "dataset_config") false
    [("dataset", .argSlot exDatasetCfgArg)]

/-- A root group with a plain option, a spawning option (firing on its
default) and one static child group. -/
def exMainRoot : ArgsGroup :=
  .mk "MainConfig" none none false
    [("seed", .argSlot exSeedArg), ("sched", .argSlot exRootSchedArg),
     ("dataset_config", .groupSlot exDatasetGrp)]

/-- Witness for C1: running the example (the root spawns `one_cycle` during
its own consume) yields the snapshot `[dataset_config, one_cycle]` with one
consumption segment per snapshot group, each segment headed by the snapshot
group itself. -/
theorem c1_root_first_fixed_bfs_inline_spawn_witness :
    List.Forall₂ (fun p seg => ∃ rest, seg = p :: rest ∧
        ∀ q ∈ rest, ∃ f r2, q = p ++ f :: r2)
      ([["dataset_config"], ["one_cycle"]] : List (List String))
      ([[["dataset_config"]], [["one_cycle"]]] : List (List (List String))) := by
  obtain ⟨h1, h2, h3⟩ := c1_root_first_fixed_bfs_inline_spawn 5 exMainRoot [] _ rfl
  exact h3

/-- Witness for C8: a token matching no registered option anywhere in the
tree survives the whole traversal and surfaces as the unrecognized-tokens
error, carrying itself and the registered options. -/
theorem c8_unrecognized_tokens_iff_leftover_witness :
    parse_args_recursively 5 exMainRoot [("bogus", Value.vStr "x")] =
      .unrecognizedTokens [("bogus", Value.vStr "x")] ["seed", "sched", "dataset", "pct"] := by
  apply (c8_unrecognized_tokens_iff_leftover_after_traversal 5 exMainRoot
    [("bogus", Value.vStr "x")] [("bogus", Value.vStr "x")]
    ["seed", "sched", "dataset", "pct"]).mpr
  refine ⟨_, rfl, rfl, by decide, rfl⟩

/-- Witness for C9: the root-spawned `one_cycle` group is a member of the
fixed breadth-first snapshot and is consumed exactly once by the outer
loop. -/
theorem c9_root_spawned_in_snapshot_consumed_once_witness :
    ([("one_cycle" : String)] ∈ ([["dataset_config"], ["one_cycle"]] : List (List String))) ∧
    List.count [("one_cycle" : String)]
      ([[["dataset_config"]], [["one_cycle"]]] : List (List (List String))).flatten = 1 := by
  exact c9_root_spawned_in_snapshot_consumed_once 5 exMainRoot [] _ "one_cycle" rfl
    (by decide) (by decide)
